import Mathlib

/-!
Shallow embedding of the workflow-execution and agent-lifecycle core of the
bmad-ui backend (src/backend/main.py, src/backend/agent_orchestrator.py,
src/backend/websocket_manager.py), together with theorems settling the
specification claims about it.

Python dictionaries (insertion-ordered, unique keys) are modelled as
association lists with first-binding-wins lookup; Python integers as `Int`
or `Nat`; wall-clock timestamps as opaque `String` parameters threaded in by
the caller; the `asyncio` interleaving of the workflow loop with the
pause/stop handlers as an explicit schedule of external status writes applied
at the loop's own status checkpoints.
-/

/-- Lookup in an insertion-ordered association list (first binding wins),
mirroring Python `dict` key access / `in` tests. -/
def lookupA {κ α : Type} [DecidableEq κ] : List (κ × α) → κ → Option α
  | [], _ => none
  | (k, v) :: rest, key => if k = key then some v else lookupA rest key

/-- Python `d[k] = v`: overwrite in place if the key exists, else append. -/
def insertA {κ α : Type} [DecidableEq κ] : List (κ × α) → κ → α → List (κ × α)
  | [], key, v => [(key, v)]
  | (k, w) :: rest, key, v =>
    if k = key then (k, v) :: rest else (k, w) :: insertA rest key v

/-- Apply `f` to the value bound at `key` (first binding), if present. -/
def updateA {κ α : Type} [DecidableEq κ] : List (κ × α) → κ → (α → α) → List (κ × α)
  | [], _, _ => []
  | (k, v) :: rest, key, f =>
    if k = key then (k, f v) :: rest else (k, v) :: updateA rest key f

/-- Python `del d[k]`: drop the first binding of `key`. -/
def eraseA {κ α : Type} [DecidableEq κ] : List (κ × α) → κ → List (κ × α)
  | [], _ => []
  | (k, v) :: rest, key => if k = key then rest else (k, v) :: eraseA rest key

theorem lookupA_insertA {κ α : Type} [DecidableEq κ] (l : List (κ × α)) (k k' : κ) (v : α) :
    lookupA (insertA l k v) k' = if k = k' then some v else lookupA l k' := by
  induction l with
  | nil => simp [insertA, lookupA]
  | cons h t ih =>
    obtain ⟨k0, v0⟩ := h
    simp only [insertA]
    by_cases h0 : k0 = k
    · by_cases h1 : k0 = k'
      · simp [lookupA, h0, h1, h0 ▸ h1]
      · have hkk : ¬ k = k' := fun hh => h1 (h0.trans hh)
        simp [lookupA, h0, h1, hkk]
    · by_cases h1 : k0 = k'
      · have hkk : ¬ k = k' := fun hh => h0 (h1.trans hh.symm)
        have hkk2 : ¬ k' = k := fun hh => hkk hh.symm
        simp [lookupA, h0, h1, hkk, hkk2]
      · simp [lookupA, h0, h1, ih]

theorem lookupA_updateA {κ α : Type} [DecidableEq κ] (l : List (κ × α)) (k k' : κ) (f : α → α) :
    lookupA (updateA l k f) k' =
      if k = k' then (lookupA l k).map f else lookupA l k' := by
  induction l with
  | nil => simp [updateA, lookupA]
  | cons h t ih =>
    obtain ⟨k0, v0⟩ := h
    simp only [updateA]
    by_cases h0 : k0 = k
    · by_cases h1 : k0 = k'
      · simp [lookupA, h0, h1, h0 ▸ h1]
      · have hkk : ¬ k = k' := fun hh => h1 (h0.trans hh)
        simp [lookupA, h0, h1, hkk]
    · by_cases h1 : k0 = k'
      · have hkk : ¬ k = k' := fun hh => h0 (h1.trans hh.symm)
        have hkk2 : ¬ k' = k := fun hh => hkk hh.symm
        simp [lookupA, h0, h1, hkk, hkk2]
      · simp [lookupA, h0, h1, ih]

theorem lookupA_eraseA_ne {κ α : Type} [DecidableEq κ] (l : List (κ × α)) (k k' : κ)
    (hne : k ≠ k') : lookupA (eraseA l k) k' = lookupA l k' := by
  induction l with
  | nil => simp [eraseA, lookupA]
  | cons h t ih =>
    obtain ⟨k0, v0⟩ := h
    by_cases h0 : k0 = k
    · subst h0
      simp only [eraseA, if_pos rfl, lookupA]
      simp [hne]
    · simp [eraseA, h0, lookupA, ih]

theorem lookupA_eraseA_self {κ α : Type} [DecidableEq κ] (l : List (κ × α)) (k : κ)
    (hnd : (l.map Prod.fst).Nodup) : lookupA (eraseA l k) k = none := by
  induction l with
  | nil => simp [eraseA, lookupA]
  | cons h t ih =>
    obtain ⟨k0, v0⟩ := h
    simp only [List.map_cons, List.nodup_cons] at hnd
    by_cases h0 : k0 = k
    · subst h0
      simp only [eraseA, if_pos rfl]
      -- k0 does not occur among the keys of t, so lookup fails
      clear ih
      induction t with
      | nil => simp [lookupA]
      | cons h2 t2 ih2 =>
        obtain ⟨k1, v1⟩ := h2
        simp only [List.map_cons, List.mem_cons, not_or] at hnd
        have hk1 : ¬ k1 = k0 := fun hh => hnd.1.1 hh.symm
        simp only [lookupA, if_neg hk1]
        exact ih2 ⟨hnd.1.2, (List.nodup_cons.mp hnd.2).2⟩
    · simp only [eraseA, if_neg h0, lookupA, if_neg h0]
      exact ih hnd.2

theorem eraseA_keys_sublist {κ α : Type} [DecidableEq κ] (l : List (κ × α)) (k : κ) :
    ((eraseA l k).map Prod.fst).Sublist (l.map Prod.fst) := by
  induction l with
  | nil => simp [eraseA]
  | cons h t ih =>
    obtain ⟨k0, v0⟩ := h
    by_cases h0 : k0 = k
    · simp only [eraseA, if_pos h0, List.map_cons]
      exact (List.sublist_cons_self _ _)
    · simp only [eraseA, if_neg h0, List.map_cons]
      exact ih.cons₂ k0

theorem updateA_keys {κ α : Type} [DecidableEq κ] (l : List (κ × α)) (k : κ) (f : α → α) :
    (updateA l k f).map Prod.fst = l.map Prod.fst := by
  induction l with
  | nil => simp [updateA]
  | cons h t ih =>
    obtain ⟨k0, v0⟩ := h
    by_cases h0 : k0 = k
    · simp [updateA, h0]
    · simp [updateA, h0, ih]

theorem lookupA_mem {κ α : Type} [DecidableEq κ] {l : List (κ × α)} {k : κ} {v : α}
    (h : lookupA l k = some v) : (k, v) ∈ l := by
  induction l with
  | nil => simp [lookupA] at h
  | cons hd t ih =>
    obtain ⟨k0, v0⟩ := hd
    by_cases h0 : k0 = k
    · simp only [lookupA, if_pos h0, Option.some.injEq] at h
      exact List.mem_cons.mpr (Or.inl (by rw [h0, h]))
    · simp only [lookupA, if_neg h0] at h
      exact List.mem_cons_of_mem _ (ih h)

theorem mem_lookupA {κ α : Type} [DecidableEq κ] {l : List (κ × α)} {k : κ} {v : α}
    (hnd : (l.map Prod.fst).Nodup) (h : (k, v) ∈ l) : lookupA l k = some v := by
  induction l with
  | nil => simp at h
  | cons hd t ih =>
    obtain ⟨k0, v0⟩ := hd
    simp only [List.map_cons, List.nodup_cons] at hnd
    rcases List.mem_cons.mp h with h1 | h1
    · obtain ⟨h2, h3⟩ := Prod.mk.injEq .. ▸ h1
      subst h2; subst h3
      simp [lookupA]
    · have hk : ¬ k0 = k := by
        intro hh
        subst hh
        exact hnd.1 (List.mem_map.mpr ⟨(k0, v), h1, rfl⟩)
      simp only [lookupA, if_neg hk]
      exact ih hnd.2 h1

/-!
Agent orchestrator (src/backend/agent_orchestrator.py).

Timestamps (`datetime.now().isoformat()` / `strftime`) are opaque strings
supplied by the caller as a `now` argument.  The float field
`success_rate` (initialised to 100.0 and never written again) is omitted;
`total_execution_time` (initialised to 0 and never written again) is kept.
-/

/-- Mutable per-agent runtime entry of `self.agent_pool`. -/
structure PoolAgent where
  name : String
  role : String
  capabilities : List String
  status : String
  current_task : Option String
  load : Int
deriving Repr, DecidableEq

/-- Per-agent entry of `self.performance_metrics`. -/
structure Metrics where
  tasks_completed : Nat
  total_execution_time : Int
  last_deployment : Option String
deriving Repr, DecidableEq

/-- A deployment record stored in `self.active_agents`.  The record is the
dict literal of `deploy_agents` whose trailing `**agent` splat re-binds the
keys `name`, `role`, `capabilities`, `status`, `current_task` and `load`
from the pool copy taken before the pool is mutated — in particular the
`"status": "deployed"` entry written earlier in the literal is overwritten
by the copied pool status. -/
structure Deployment where
  deployment_id : String
  agent_id : String
  project_id : String
  task : String
  deployed_at : String
  progress : Int
  logs : List String
  name : String
  role : String
  capabilities : List String
  status : String
  current_task : Option String
  load : Int
  updated_at : Option String
  completed_at : Option String
  recalled_at : Option String
deriving Repr, DecidableEq

/-- History entry appended by `deploy_agents`. -/
structure DeploymentRecord where
  deployment_id : String
  project_id : String
  task : String
  agents_requested : List String
  agents_deployed : List String
  failed_deployments : List (String × String)
  deployed_at : String
deriving Repr, DecidableEq

/-- The mutable state of `AgentOrchestrator`. -/
structure OrchState where
  active_agents : List (String × Deployment)
  agent_pool : List (String × PoolAgent)
  deployment_history : List DeploymentRecord
  performance_metrics : List (String × Metrics)
deriving Repr, DecidableEq

/-- One agent of the fixed pool in its constructor state. -/
def freshAgent (name role : String) (capabilities : List String) : PoolAgent :=
  { name := name, role := role, capabilities := capabilities,
    status := "available", current_task := none, load := 0 }

/-- The fixed six-agent pool built in `AgentOrchestrator.__init__`. -/
def initialPool : List (String × PoolAgent) :=
  [ ("pm", freshAgent "PROJECT MANAGER" "Mission Coordinator"
      ["project planning", "coordination", "stakeholder management"]),
    ("architect", freshAgent "SYSTEM ARCHITECT" "Infrastructure Designer"
      ["system design", "architecture planning", "technical documentation"]),
    ("dev", freshAgent "CORE DEVELOPER" "Code Implementation Specialist"
      ["code development", "implementation", "debugging", "testing"]),
    ("qa", freshAgent "QUALITY ASSURANCE" "Testing and Validation Unit"
      ["testing", "quality validation", "performance analysis"]),
    ("ux-expert", freshAgent "UX SPECIALIST" "User Experience Designer"
      ["ui design", "user research", "accessibility"]),
    ("po", freshAgent "PRODUCT OWNER" "Requirements and Vision Keeper"
      ["requirements gathering", "user stories", "acceptance criteria"]) ]

/-- Metrics entry written by `AgentOrchestrator.initialize`. -/
def freshMetrics : Metrics :=
  { tasks_completed := 0, total_execution_time := 0, last_deployment := none }

/-- Orchestrator state right after `__init__` + `initialize`. -/
def initialOrchState : OrchState :=
  { active_agents := [],
    agent_pool := initialPool,
    deployment_history := [],
    performance_metrics := initialPool.map (fun kv => (kv.1, freshMetrics)) }

/-- The `agent_deployment` dict literal of `deploy_agents`.  Its `**agent`
splat comes last, so the copied pool fields — including the pool status
"available" — overwrite the `"status": "deployed"` entry written earlier in
the literal. -/
def mkDeployment (deployment_id agent_id project_id task now : String)
    (agent : PoolAgent) : Deployment :=
  { deployment_id := deployment_id, agent_id := agent_id,
    project_id := project_id, task := task, deployed_at := now,
    progress := 0,
    logs := ["Agent " ++ agent_id ++ " deployed for task: " ++ task],
    name := agent.name, role := agent.role,
    capabilities := agent.capabilities,
    status := agent.status, current_task := agent.current_task,
    load := agent.load,
    updated_at := none, completed_at := none, recalled_at := none }

/-- The pool/map/metrics mutations of a successful per-agent deployment. -/
def deployApply (st : OrchState) (deployment_id agent_id task now : String)
    (dep : Deployment) : OrchState :=
  { st with
    agent_pool := updateA st.agent_pool agent_id (fun a =>
      { a with status := "deployed", current_task := some task,
               load := a.load + 1 }),
    active_agents :=
      insertA st.active_agents (deployment_id ++ "_" ++ agent_id) dep,
    performance_metrics := updateA st.performance_metrics agent_id
      (fun m => { m with last_deployment := some now }) }

/-- The per-agent body of the `for agent_id in agent_ids` loop of
`deploy_agents`, iterated over the requested ids.  Returns the state after
the remaining iterations together with the `deployed_agents` and
`failed_deployments` lists they produce (in iteration order). -/
def deployLoop (deployment_id project_id task now : String) :
    List String → OrchState → OrchState × List Deployment × List (String × String)
  | [], st => (st, [], [])
  | agent_id :: rest, st =>
    match lookupA st.agent_pool agent_id with
    | none =>
      let out := deployLoop deployment_id project_id task now rest st
      (out.1, out.2.1, (agent_id, "Agent not found in pool") :: out.2.2)
    | some agent =>
      if agent.status ≠ "available" then
        let out := deployLoop deployment_id project_id task now rest st
        (out.1, out.2.1, (agent_id, "Agent busy: " ++ agent.status) :: out.2.2)
      else
        let dep := mkDeployment deployment_id agent_id project_id task now agent
        let out := deployLoop deployment_id project_id task now rest
          (deployApply st deployment_id agent_id task now dep)
        (out.1, dep :: out.2.1, out.2.2)

/-- Result dict of `deploy_agents`. -/
structure DeployOutcome where
  success : Bool
  deployment_id : String
  deployed_agents : List Deployment
  failed_deployments : List (String × String)
  total_requested : Nat
  total_deployed : Nat
deriving Repr, DecidableEq

/-- `AgentOrchestrator.deploy_agents`.  `now` stands for the timestamp used
both in the deployment id and in the `deployed_at`/`last_deployment`
fields; nothing in the body can raise, so the `except` branch is dead. -/
def deploy_agents (st : OrchState) (project_id : String) (agent_ids : List String)
    (task : String) (now : String) : OrchState × DeployOutcome :=
  let deployment_id := "deploy_" ++ now ++ "_" ++ project_id
  let out := deployLoop deployment_id project_id task now agent_ids st
  let st1 := out.1
  let deployed := out.2.1
  let failed := out.2.2
  let record : DeploymentRecord :=
    { deployment_id := deployment_id, project_id := project_id, task := task,
      agents_requested := agent_ids,
      agents_deployed := deployed.map (fun d => d.agent_id),
      failed_deployments := failed, deployed_at := now }
  ({ st1 with deployment_history := st1.deployment_history ++ [record] },
   { success := decide (0 < deployed.length), deployment_id := deployment_id,
     deployed_agents := deployed, failed_deployments := failed,
     total_requested := agent_ids.length, total_deployed := deployed.length })

/-- Python `lst[-n:]`. -/
def lastN {α : Type} (n : Nat) (l : List α) : List α := l.drop (l.length - n)

/-- The three pool-entry assignments shared verbatim by the completion branch
of `update_agent_progress` and by `recall_agents`: status back to available,
task cleared, load clamped-decremented. -/
def poolRelease (a : PoolAgent) : PoolAgent :=
  { a with status := "available", current_task := none,
           load := max 0 (a.load - 1) }

/-- `self.performance_metrics[agent_id]["tasks_completed"] += 1`. -/
def bumpCompleted (m : Metrics) : Metrics :=
  { m with tasks_completed := m.tasks_completed + 1 }

/-- `AgentOrchestrator.update_agent_progress`.  Returns the updated state and
the boolean result (`False` for an unknown deployment key). -/
def update_agent_progress (st : OrchState) (deployment_key : String)
    (progress : Int) (logs : Option (List String)) (now : String) :
    OrchState × Bool :=
  match lookupA st.active_agents deployment_key with
  | none => (st, false)
  | some d =>
    let d1 := { d with progress := min 100 (max 0 progress),
                       updated_at := some now }
    let d2 := match logs with
      | some ls =>
        if ls = [] then d1
        else { d1 with logs := lastN 50 (d1.logs ++ ls) }
      | none => d1
    if 100 ≤ progress then
      let d3 := { d2 with status := "completed", completed_at := some now }
      let agent_id := d3.agent_id
      ({ st with
         active_agents := updateA st.active_agents deployment_key (fun _ => d3),
         agent_pool := updateA st.agent_pool agent_id poolRelease,
         performance_metrics :=
           updateA st.performance_metrics agent_id bumpCompleted },
       true)
    else
      ({ st with
         active_agents := updateA st.active_agents deployment_key (fun _ => d2) },
       true)

/-- Body of the `for key, agent in list(self.active_agents.items())` loop of
`recall_agents`, iterated over the snapshot of the deployment map taken at
entry while the state is mutated underneath.  (The `agent["status"] =
"recalled"` / `recalled_at` writes mutate a dict that is deleted from the
map in the same iteration and are therefore not observable afterwards.) -/
def recallLoop (project_id now : String) :
    List (String × Deployment) → OrchState → OrchState × List String
  | [], st => (st, [])
  | (key, d) :: rest, st =>
    if d.project_id = project_id then
      let st1 : OrchState :=
        { st with
          agent_pool := updateA st.agent_pool d.agent_id poolRelease,
          active_agents := eraseA st.active_agents key }
      let out := recallLoop project_id now rest st1
      (out.1, d.agent_id :: out.2)
    else
      recallLoop project_id now rest st

/-- `AgentOrchestrator.recall_agents`: returns the updated state and the
`recalled_agents` list of the result dict. -/
def recall_agents (st : OrchState) (project_id now : String) :
    OrchState × List String :=
  recallLoop project_id now st.active_agents st

/-- `AgentOrchestrator.get_active_agent_count`. -/
def get_active_agent_count (st : OrchState) : Nat :=
  (st.agent_pool.filter (fun kv =>
    kv.2.status = "deployed" ∨ kv.2.status = "active")).length

/-!
Workflow runner (src/backend/main.py).

`active_workflows` is the module-level run table keyed by project id.  The
broadcast payloads that are irrelevant to the claims (step dict, agent
snapshots, step results, final result) are dropped from the event type; the
event kind, project id, step index and progress value are kept.  The
`bmad_integration.execute_step` collaborator is abstracted as a function of
the step index that either yields a result string or raises (`Except`); the
broadcast and sleep primitives themselves never raise in this model.

Concurrency: the execution loop reads `workflow["status"]` at the top of
each step iteration, before each progress broadcast, and once at the end.
The pause/stop handlers run interleaved with the loop; their effect on the
run's status is modelled by a schedule `sched : Nat → Option String` giving
the external write (if any) that lands before the loop's n-th status read.
Events emitted by the loop are tagged with the value of the read counter at
emission time.
-/

/-- A broadcast event, restricted to the fields the claims mention. -/
inductive Event
  | project_created (project_id : String)
  | step_started (project_id : String) (step_index : Nat)
  | step_progress (project_id : String) (step_index : Nat) (progress : Nat)
  | step_completed (project_id : String) (step_index : Nat)
  | workflow_completed (project_id : String)
  | workflow_paused (project_id : String)
  | workflow_stopped (project_id : String)
  | workflow_error (project_id : String) (error : String)
deriving Repr, DecidableEq

/-- One entry of the run's `steps` list: an opaque config dict to which the
loop adds a `status` and a `result` key. -/
structure WStep where
  name : String
  status : Option String
  result : Option String
deriving Repr, DecidableEq

/-- One entry of `active_workflows`. -/
structure Workflow where
  status : String
  start_time : String
  current_step : Nat
  steps : List WStep
  agents : List String
  error : Option String
deriving Repr, DecidableEq

/-- The `active_workflows` table. -/
def RunTable : Type := List (String × Workflow)

/-- String rendering of a FastAPI `HTTPException`, as produced by `str(e)`:
status code, colon, detail. -/
def httpExcStr (code : Nat) (detail : String) : String :=
  toString code ++ ": " ++ detail

/-- `start_workflow` (POST /api/workflows/{project_id}/start).  The config
steps and agents come from the `get_workflow_config` collaborator and are
passed in.  When the project already has an entry, the handler raises
`HTTPException(400, "Workflow already running")` inside its `try` block;
the blanket `except Exception` catches that very exception and re-raises it
wrapped as a 500, which is what the caller observes. -/
def start_workflow (tbl : List (String × Workflow)) (project_id : String)
    (cfgSteps : List WStep) (cfgAgents : List String) (now : String) :
    List (String × Workflow) × Except (Nat × String) Unit :=
  if (lookupA tbl project_id).isSome then
    (tbl, .error (500, "Failed to start workflow: " ++
      httpExcStr 400 "Workflow already running"))
  else
    (insertA tbl project_id
      { status := "running", start_time := now, current_step := 0,
        steps := cfgSteps, agents := cfgAgents, error := none },
     .ok ())

/-- `pause_workflow` (POST /api/workflows/{project_id}/pause).  Sets the
status of the existing entry to "paused" unconditionally — whatever status
the run currently has. -/
def pause_workflow (tbl : List (String × Workflow)) (project_id : String) :
    List (String × Workflow) × Except (Nat × String) Unit × List Event :=
  if (lookupA tbl project_id).isSome then
    (updateA tbl project_id (fun w => { w with status := "paused" }),
     .ok (), [Event.workflow_paused project_id])
  else
    (tbl, .error (404, "Workflow not found"), [])

/-- `stop_workflow` (POST /api/workflows/{project_id}/stop).  When the entry
exists its status is set to "stopped", and after the one-second grace sleep
the entry is deleted; the handler then broadcasts a single
`workflow_stopped` event either way.  The returned table is the state after
the grace delay. -/
def stop_workflow (tbl : List (String × Workflow)) (project_id : String) :
    List (String × Workflow) × List Event :=
  if (lookupA tbl project_id).isSome then
    (eraseA (updateA tbl project_id (fun w => { w with status := "stopped" }))
      project_id,
     [Event.workflow_stopped project_id])
  else
    (tbl, [Event.workflow_stopped project_id])

/-- External status write (if any) landing before the loop's read number
`k`, applied to the run. -/
def observe (sched : Nat → Option String) (k : Nat) (w : Workflow) : Workflow :=
  match sched k with
  | some s => { w with status := s }
  | none => w

/-- `workflow["steps"][i]["status"] = "completed"` and
`workflow["steps"][i]["result"] = res`. -/
def setStepAt : List WStep → Nat → String → List WStep
  | [], _, _ => []
  | s :: rest, 0, res => { s with status := some "completed", result := some res } :: rest
  | s :: rest, Nat.succ n, res => s :: setStepAt rest n res

/-- Fixed progress ladder `range(0, 101, 10)`. -/
def ladder : List Nat := (List.range 11).map (fun i => i * 10)

/-- The `for progress in range(0, 101, 10)` loop of `execute_workflow` for
step `i`: before each progress broadcast the run status is read (read
counter `k`); a non-"running" status breaks out of the loop.  Returns the
run, the next read counter and the tagged events emitted. -/
def progressLoop (project_id : String) (i : Nat) (sched : Nat → Option String) :
    List Nat → Nat → Workflow → Workflow × Nat × List (Nat × Event)
  | [], k, w => (w, k, [])
  | p :: rest, k, w =>
    let w1 := observe sched k w
    if w1.status ≠ "running" then (w1, k + 1, [])
    else
      let out := progressLoop project_id i sched rest (k + 1) w1
      (out.1, out.2.1, (k, Event.step_progress project_id i p) :: out.2.2)

/-- Result of the step loop: either normal control flow or a pending
exception raised by the step executor. -/
inductive LoopOut
  | ok (w : Workflow) (k : Nat) (evs : List (Nat × Event))
  | exc (w : Workflow) (k : Nat) (evs : List (Nat × Event)) (msg : String)
deriving Repr

/-- Prepend already-emitted events to a loop continuation's events. -/
def withPre (pre : List (Nat × Event)) : LoopOut → LoopOut
  | .ok w k evs => .ok w k (pre ++ evs)
  | .exc w k evs e => .exc w k (pre ++ evs) e

/-- The `for step_index, step in enumerate(workflow_steps)` loop of
`execute_workflow`, over the remaining `(index, step)` pairs. -/
def stepLoop (project_id : String) (exeStep : Nat → Except String String)
    (sched : Nat → Option String) :
    List (Nat × WStep) → Nat → Workflow → LoopOut
  | [], k, w => .ok w k []
  | (i, _) :: rest, k, w =>
    let w1 := observe sched k w
    if w1.status ≠ "running" then .ok w1 (k + 1) []
    else
      let w2 := { w1 with current_step := i }
      let started := (k, Event.step_started project_id i)
      match exeStep i with
      | .error e => .exc w2 (k + 1) [started] e
      | .ok res =>
        let out := progressLoop project_id i sched ladder (k + 1) w2
        let w3 := { out.1 with steps := setStepAt out.1.steps i res }
        let completedEv := (out.2.1, Event.step_completed project_id i)
        withPre (started :: out.2.2 ++ [completedEv])
          (stepLoop project_id exeStep sched rest out.2.1 w3)

/-- `execute_workflow(project_id)`: the background task started by
`start_workflow`.  Returns `none` when the project has no entry (the early
`return`), otherwise the final state of the run object it holds a reference
to, together with the tagged events it broadcast. -/
def execute_workflow (tbl : List (String × Workflow)) (project_id : String)
    (exeStep : Nat → Except String String) (sched : Nat → Option String) :
    Option (Workflow × List (Nat × Event)) :=
  match lookupA tbl project_id with
  | none => none
  | some w0 =>
    match stepLoop project_id exeStep sched w0.steps.enum 0 w0 with
    | .exc w k evs e =>
      some ({ w with status := "error", error := some e },
        evs ++ [(k, Event.workflow_error project_id e)])
    | .ok w k evs =>
      let w1 := observe sched k w
      if w1.status = "running" then
        some ({ w1 with status := "completed" },
          evs ++ [(k, Event.workflow_completed project_id)])
      else
        some (w1, evs)

/-!
WebSocket connection manager (src/backend/websocket_manager.py).

Observers (WebSocket handles) are modelled as natural numbers.  Python sets
are modelled as duplicate-free lists; `set.discard` / `list.remove` both
drop the (first) occurrence of the element.  The transport is abstracted by
`sendOk : Nat → Bool`, the success of `send_text` per observer during one
broadcast.
-/

/-- The mutable state of `ConnectionManager`.  The `connected_at` metadata
timestamp is irrelevant to the claims and dropped; only the per-connection
`subscriptions` set is kept. -/
structure ConnState where
  active_connections : List Nat
  project_subscriptions : List (String × List Nat)
  connection_metadata : List (Nat × List String)
deriving Repr, DecidableEq

/-- Body of the subscription-cleanup loop of `ConnectionManager.disconnect`
for one subscribed project id. -/
def dropSub (ws : Nat) (ps : List (String × List Nat)) (project_id : String) :
    List (String × List Nat) :=
  match lookupA ps project_id with
  | none => ps
  | some conns =>
    let conns2 := conns.erase ws
    if conns2 = [] then eraseA ps project_id
    else updateA ps project_id (fun _ => conns2)

/-- `ConnectionManager.disconnect`. -/
def disconnect (cs : ConnState) (ws : Nat) : ConnState :=
  let conns :=
    if ws ∈ cs.active_connections then cs.active_connections.erase ws
    else cs.active_connections
  match lookupA cs.connection_metadata ws with
  | none => { cs with active_connections := conns }
  | some subs =>
    { active_connections := conns,
      project_subscriptions := subs.foldl (dropSub ws) cs.project_subscriptions,
      connection_metadata := eraseA cs.connection_metadata ws }

/-- `ConnectionManager.broadcast`.  Returns the new state together with the
trace of send attempts `(observer, success)` in iteration order; every
observer in the connection list is attempted, and the observers whose send
failed are disconnected afterwards, in order. -/
def broadcast (cs : ConnState) (sendOk : Nat → Bool) :
    ConnState × List (Nat × Bool) :=
  if cs.active_connections = [] then (cs, [])
  else
    let attempts := cs.active_connections.map (fun c => (c, sendOk c))
    let disconnected := cs.active_connections.filter (fun c => ! sendOk c)
    (disconnected.foldl disconnect cs, attempts)

/-- `ConnectionManager.subscribe_to_project` (state change only; the
confirmation message sent back is not part of the claims). -/
def subscribe_to_project (cs : ConnState) (ws : Nat) (project_id : String) :
    ConnState :=
  let ps := match lookupA cs.project_subscriptions project_id with
    | none => insertA cs.project_subscriptions project_id [ws]
    | some conns =>
      updateA cs.project_subscriptions project_id
        (fun _ => if ws ∈ conns then conns else conns ++ [ws])
  let md :=
    if (lookupA cs.connection_metadata ws).isSome then
      updateA cs.connection_metadata ws
        (fun subs => if project_id ∈ subs then subs else subs ++ [project_id])
    else cs.connection_metadata
  { cs with project_subscriptions := ps, connection_metadata := md }

/-!
Concrete fixtures used by the claim theorems and their witnesses.
-/

/-- A two-step workflow config, as returned by `get_workflow_config`. -/
def demoSteps : List WStep :=
  [ { name := "s0", status := none, result := none },
    { name := "s1", status := none, result := none } ]

/-- Run table after a successful start for project "p2". -/
def startedTable : List (String × Workflow) :=
  (start_workflow [] "p2" demoSteps ["pm"] "t0").1

/-- A step executor that always succeeds. -/
def demoExec : Nat → Except String String := fun i => .ok ("r" ++ toString i)

/-- Schedule with no external status writes: the run stays "running". -/
def quiet : Nat → Option String := fun _ => none

/-- Orchestrator state after deploying agent "pm" to project "p1". -/
def stDeployed : OrchState :=
  (deploy_agents initialOrchState "p1" ["pm"] "design" "T0").1

/-- The deployment key created by that deploy call. -/
def depKey : String := "deploy_T0_p1_pm"

/-- State after one `update_agent_progress(depKey, 100)` call. -/
def stOnce : OrchState := (update_agent_progress stDeployed depKey 100 none "T1").1

/-- State after a second identical `update_agent_progress(depKey, 100)` call. -/
def stTwice : OrchState := (update_agent_progress stOnce depKey 100 none "T2").1

/-- C1: a second `start_workflow` for a project that already has a table
entry is rejected and mutates nothing — but the
`HTTPException(400, "Workflow already running")` raised inside the
handler's `try` block is caught by its own blanket `except Exception` and
surfaces as a 500 InternalError wrapping the conflict detail, not as the
400 Conflict outcome the claim describes. -/
theorem start_workflow_conflict_is_wrapped_as_500 :
    (start_workflow startedTable "p2" demoSteps ["pm"] "t9").2
      = .error (500, "Failed to start workflow: 400: Workflow already running") ∧
    (start_workflow startedTable "p2" demoSteps ["pm"] "t9").1 = startedTable := by
  constructor
  · rfl
  · rfl

/-- C3 counterexample: the deployment record of `depKey` stays in
`active_agents` after completion, so the second identical
`update_agent_progress(depKey, 100)` call takes the completion branch again
and increments `tasks_completed` a second time — the counter reaches 2 for a
single deployment, not 1. -/
theorem update_progress_double_completion :
    (lookupA stOnce.performance_metrics "pm").map Metrics.tasks_completed
      = some 1 ∧
    (lookupA stTwice.performance_metrics "pm").map Metrics.tasks_completed
      = some 2 ∧
    (lookupA stTwice.agent_pool "pm").map PoolAgent.status = some "available" ∧
    (update_agent_progress stOnce depKey 100 none "T2").2 = true := by
  refine ⟨rfl, rfl, rfl, rfl⟩

/-- C5 counterexample: after the deployment of "pm" completed (progress 100),
no deployment of project "p1" has status "deployed" or "active" — the only
record has status "completed" — yet `recall_agents("p1")` still returns
["pm"], so the returned set is strictly larger than the set of agent ids
with active-status deployments before the call. -/
theorem recall_returns_completed_deployment :
    (recall_agents stOnce "p1" "T3").2 = ["pm"] ∧
    stOnce.active_agents.filter
      (fun kd => kd.2.status = "deployed" ∨ kd.2.status = "active") = [] ∧
    (lookupA stOnce.active_agents depKey).map Deployment.status
      = some "completed" := by
  refine ⟨rfl, by decide, rfl⟩

/-- A run that has reached the terminal status "completed" (as
`execute_workflow` leaves it). -/
def completedRun : Workflow :=
  { status := "completed", start_time := "t0", current_step := 1,
    steps := [ { name := "s0", status := some "completed", result := some "r0" },
               { name := "s1", status := some "completed", result := some "r1" } ],
    agents := ["pm"], error := none }

/-- Run table holding the completed run. -/
def completedTable : List (String × Workflow) := [("p2", completedRun)]

/-- C8 counterexample: `pause_workflow` on a run whose status is the terminal
"completed" succeeds and rewrites the status to the non-terminal "paused":
terminal statuses are not sinks under the pause operation. -/
theorem pause_moves_completed_run_to_paused :
    completedRun.status = "completed" ∧
    (lookupA (pause_workflow completedTable "p2").1 "p2").map Workflow.status
      = some "paused" ∧
    (pause_workflow completedTable "p2").2.1 = .ok () ∧
    ¬ ("paused" = "stopped" ∨ "paused" = "completed" ∨ "paused" = "error") := by
  refine ⟨rfl, rfl, rfl, by decide⟩

/-!
Claim C2: deploying a non-available agent.
-/

theorem deployLoop_cons_none (did pid task now id : String) (rest : List String)
    (st : OrchState) (hx : lookupA st.agent_pool id = none) :
    deployLoop did pid task now (id :: rest) st
      = ((deployLoop did pid task now rest st).1,
         (deployLoop did pid task now rest st).2.1,
         (id, "Agent not found in pool")
           :: (deployLoop did pid task now rest st).2.2) := by
  simp [deployLoop, hx]

theorem deployLoop_cons_busy (did pid task now id : String) (rest : List String)
    (st : OrchState) (agent : PoolAgent)
    (hx : lookupA st.agent_pool id = some agent)
    (hb : agent.status ≠ "available") :
    deployLoop did pid task now (id :: rest) st
      = ((deployLoop did pid task now rest st).1,
         (deployLoop did pid task now rest st).2.1,
         (id, "Agent busy: " ++ agent.status)
           :: (deployLoop did pid task now rest st).2.2) := by
  simp [deployLoop, hx, hb]

theorem deployLoop_cons_avail (did pid task now id : String) (rest : List String)
    (st : OrchState) (agent : PoolAgent)
    (hx : lookupA st.agent_pool id = some agent)
    (hb : agent.status = "available") :
    deployLoop did pid task now (id :: rest) st
      = ((deployLoop did pid task now rest
            (deployApply st did id task now
              (mkDeployment did id pid task now agent))).1,
         mkDeployment did id pid task now agent
           :: (deployLoop did pid task now rest
                (deployApply st did id task now
                  (mkDeployment did id pid task now agent))).2.1,
         (deployLoop did pid task now rest
            (deployApply st did id task now
              (mkDeployment did id pid task now agent))).2.2) := by
  simp [deployLoop, hx, hb]

theorem deployLoop_busy_agent_untouched (did pid task now aid : String)
    (a : PoolAgent) (hbusy : a.status ≠ "available") (ids : List String) :
    ∀ st : OrchState, lookupA st.agent_pool aid = some a →
      lookupA (deployLoop did pid task now ids st).1.agent_pool aid = some a ∧
      (aid ∈ ids →
        (aid, "Agent busy: " ++ a.status)
          ∈ (deployLoop did pid task now ids st).2.2) ∧
      (∀ k dep,
        lookupA (deployLoop did pid task now ids st).1.active_agents k
          = some dep →
        dep.agent_id = aid → lookupA st.active_agents k = some dep) := by
  induction ids with
  | nil =>
    intro st hp
    refine ⟨hp, by simp, ?_⟩
    intro k dep h _
    simpa [deployLoop] using h
  | cons id rest ih =>
    intro st hp
    cases hx : lookupA st.agent_pool id with
    | none =>
      have hne : aid ≠ id := by
        intro hh; rw [hh] at hp; rw [hp] at hx; exact Option.noConfusion hx
      obtain ⟨ihp, ihm, iha⟩ := ih st hp
      rw [deployLoop_cons_none did pid task now id rest st hx]
      refine ⟨ihp, ?_, ?_⟩
      · intro hmem
        have hmem' : aid ∈ rest := by
          rcases List.mem_cons.mp hmem with h1 | h1
          · exact absurd h1 hne
          · exact h1
        exact List.mem_cons_of_mem _ (ihm hmem')
      · intro k dep h hid
        exact iha k dep h hid
    | some agent =>
      by_cases hav : agent.status = "available"
      · have hne : aid ≠ id := by
          intro hh
          rw [hh] at hp; rw [hp] at hx
          injection hx with h2
          exact hbusy (h2 ▸ hav)
        set dep0 := mkDeployment did id pid task now agent with hdep0
        set st1 := deployApply st did id task now dep0 with hst1
        have hp1 : lookupA st1.agent_pool aid = some a := by
          rw [hst1]
          simp only [deployApply]
          rw [lookupA_updateA]
          have : ¬ id = aid := fun hh => hne hh.symm
          simp [this, hp]
        obtain ⟨ihp, ihm, iha⟩ := ih st1 hp1
        rw [deployLoop_cons_avail did pid task now id rest st agent hx hav]
        refine ⟨ihp, ?_, ?_⟩
        · intro hmem
          have hmem' : aid ∈ rest := by
            rcases List.mem_cons.mp hmem with h1 | h1
            · exact absurd h1 hne
            · exact h1
          exact ihm hmem'
        · intro k dep h hid
          have h1 : lookupA st1.active_agents k = some dep := iha k dep h hid
          rw [hst1] at h1
          simp only [deployApply] at h1
          rw [lookupA_insertA] at h1
          by_cases hk : did ++ "_" ++ id = k
          · rw [if_pos hk] at h1
            injection h1 with h2
            have : dep.agent_id = id := by rw [← h2]; rfl
            exact absurd (hid.symm.trans this) hne
          · rw [if_neg hk] at h1
            exact h1
      · have hbagent : agent.status ≠ "available" := hav
        obtain ⟨ihp, ihm, iha⟩ := ih st hp
        rw [deployLoop_cons_busy did pid task now id rest st agent hx hbagent]
        refine ⟨ihp, ?_, ?_⟩
        · intro hmem
          rcases List.mem_cons.mp hmem with h1 | h1
          · rw [h1] at hp
            rw [hp] at hx
            injection hx with h2
            rw [h1, h2]
            exact List.mem_cons_self _ _
          · exact List.mem_cons_of_mem _ (ihm h1)
        · intro k dep h hid
          exact iha k dep h hid

/-- C2: for an agent id bound in the pool with a status other than
"available", any `deploy_agents` call leaves that agent's pool entry
(status, current task, load) exactly as it was, records the failure
"Agent busy: <status>" for each requested occurrence of the id, and creates
no deployment record for it: every deployment keyed in the resulting
`active_agents` map whose `agent_id` is that agent was already present
before the call. -/
theorem deploy_rejects_busy_agent_without_mutation
    (st : OrchState) (project_id task now aid : String) (ids : List String)
    (a : PoolAgent) (hp : lookupA st.agent_pool aid = some a)
    (hbusy : a.status ≠ "available") :
    lookupA (deploy_agents st project_id ids task now).1.agent_pool aid
      = some a ∧
    (aid ∈ ids →
      (aid, "Agent busy: " ++ a.status)
        ∈ (deploy_agents st project_id ids task now).2.failed_deployments) ∧
    (∀ k dep,
      lookupA (deploy_agents st project_id ids task now).1.active_agents k
        = some dep →
      dep.agent_id = aid → lookupA st.active_agents k = some dep) := by
  obtain ⟨h1, h2, h3⟩ :=
    deployLoop_busy_agent_untouched
      ("deploy_" ++ now ++ "_" ++ project_id) project_id task now aid a hbusy
      ids st hp
  exact ⟨by simpa [deploy_agents] using h1,
         fun hmem => by simpa [deploy_agents] using h2 hmem,
         fun k dep h hid => h3 k dep (by simpa [deploy_agents] using h) hid⟩

/-- The pool entry of "pm" while deployed to project "p1". -/
def busyPm : PoolAgent :=
  { name := "PROJECT MANAGER", role := "Mission Coordinator",
    capabilities := ["project planning", "coordination",
                     "stakeholder management"],
    status := "deployed", current_task := some "design", load := 1 }

/-- The deployment record created for "pm" on project "p1" (note the
`**agent`-splatted status "available"). -/
def demoDep : Deployment :=
  { deployment_id := "deploy_T0_p1", agent_id := "pm", project_id := "p1",
    task := "design", deployed_at := "T0", progress := 0,
    logs := ["Agent pm deployed for task: design"],
    name := "PROJECT MANAGER", role := "Mission Coordinator",
    capabilities := ["project planning", "coordination",
                     "stakeholder management"],
    status := "available", current_task := none, load := 0,
    updated_at := none, completed_at := none, recalled_at := none }

/-- Witness for C2 at a concrete busy agent. -/
theorem deploy_rejects_busy_agent_without_mutation_witness :
    lookupA stDeployed.active_agents depKey = some demoDep :=
  (deploy_rejects_busy_agent_without_mutation stDeployed "p9" "review" "T5"
      "pm" ["pm"] busyPm rfl (by decide)).2.2 depKey demoDep rfl rfl

/-!
Claim C3: a second completion call repeats the completion effects.
-/

theorem update_complete_effects (st : OrchState) (key : String) (progress : Int)
    (logs : Option (List String)) (now : String) (d : Deployment)
    (hkey : lookupA st.active_agents key = some d) (hp : 100 ≤ progress) :
    ∃ d' : Deployment,
      d'.agent_id = d.agent_id ∧ d'.status = "completed" ∧
      (update_agent_progress st key progress logs now).1
        = { st with
            active_agents := updateA st.active_agents key (fun _ => d'),
            agent_pool := updateA st.agent_pool d.agent_id poolRelease,
            performance_metrics :=
              updateA st.performance_metrics d.agent_id bumpCompleted } ∧
      (update_agent_progress st key progress logs now).2 = true := by
  rcases logs with _ | ls
  · simp only [update_agent_progress, hkey, if_pos hp]
    refine ⟨_, ?_, ?_, rfl, ?_⟩ <;> first
    | rfl
    | trivial
  · by_cases hls : ls = []
    · simp only [update_agent_progress, hkey, if_pos hp, if_pos hls]
      refine ⟨_, ?_, ?_, rfl, ?_⟩ <;> first
    | rfl
    | trivial
    · simp only [update_agent_progress, hkey, if_pos hp, if_neg hls]
      refine ⟨_, ?_, ?_, rfl, ?_⟩ <;> first
    | rfl
    | trivial

/-- C3 amended: because natural completion leaves the deployment record in
`active_agents`, `update_agent_progress` with progress ≥ 100 is not
idempotent — a second identical call still finds the record, takes the
completion branch again and increments the agent's `tasks_completed`
counter a second time (the counter advances once per call, twice for the
deployment); the pool status nevertheless remains "available" and the
second call returns True. -/
theorem update_progress_completion_not_idempotent
    (st : OrchState) (key : String) (progress : Int)
    (logs logs2 : Option (List String)) (now now2 : String)
    (d : Deployment) (a : PoolAgent) (m : Metrics)
    (hkey : lookupA st.active_agents key = some d)
    (ha : lookupA st.agent_pool d.agent_id = some a)
    (hm : lookupA st.performance_metrics d.agent_id = some m)
    (hp : 100 ≤ progress) :
    (lookupA (update_agent_progress
        (update_agent_progress st key progress logs now).1
        key progress logs2 now2).1.agent_pool d.agent_id).map PoolAgent.status
      = some "available" ∧
    (lookupA (update_agent_progress
        (update_agent_progress st key progress logs now).1
        key progress logs2 now2).1.performance_metrics d.agent_id).map
          Metrics.tasks_completed
      = some (m.tasks_completed + 2) ∧
    (update_agent_progress
        (update_agent_progress st key progress logs now).1
        key progress logs2 now2).2 = true := by
  obtain ⟨d1, hid1, _, hst1, _⟩ :=
    update_complete_effects st key progress logs now d hkey hp
  have hkey1 : lookupA (update_agent_progress st key progress logs now).1.active_agents
      key = some d1 := by
    rw [hst1]
    simp only []
    rw [lookupA_updateA, if_pos rfl, hkey]
    rfl
  obtain ⟨d2, hid2, _, hst2, hret2⟩ :=
    update_complete_effects (update_agent_progress st key progress logs now).1
      key progress logs2 now2 d1 hkey1 hp
  rw [hid1] at hst2
  have hpool : lookupA (update_agent_progress
      (update_agent_progress st key progress logs now).1
      key progress logs2 now2).1.agent_pool d.agent_id
        = some (poolRelease (poolRelease a)) := by
    rw [hst2]
    simp only []
    rw [lookupA_updateA, if_pos rfl, hst1]
    simp only []
    rw [lookupA_updateA, if_pos rfl, ha]
    rfl
  have hmet : lookupA (update_agent_progress
      (update_agent_progress st key progress logs now).1
      key progress logs2 now2).1.performance_metrics d.agent_id
        = some (bumpCompleted (bumpCompleted m)) := by
    rw [hst2]
    simp only []
    rw [lookupA_updateA, if_pos rfl, hst1]
    simp only []
    rw [lookupA_updateA, if_pos rfl, hm]
    rfl
  refine ⟨by rw [hpool]; rfl, by rw [hmet]; rfl, hret2⟩

/-- Metrics entry of "pm" in `stDeployed`. -/
def demoMetrics : Metrics :=
  { tasks_completed := 0, total_execution_time := 0,
    last_deployment := some "T0" }

/-- Witness for the amended C3 at the concrete double-completion scenario. -/
theorem update_progress_completion_not_idempotent_witness :
    (lookupA (update_agent_progress
        (update_agent_progress stDeployed depKey 100 none "T1").1
        depKey 100 none "T2").1.agent_pool demoDep.agent_id).map PoolAgent.status
      = some "available" ∧
    (lookupA (update_agent_progress
        (update_agent_progress stDeployed depKey 100 none "T1").1
        depKey 100 none "T2").1.performance_metrics demoDep.agent_id).map
          Metrics.tasks_completed
      = some (demoMetrics.tasks_completed + 2) ∧
    (update_agent_progress
        (update_agent_progress stDeployed depKey 100 none "T1").1
        depKey 100 none "T2").2 = true :=
  update_progress_completion_not_idempotent stDeployed depKey 100 none none
    "T1" "T2" demoDep busyPm demoMetrics rfl rfl rfl (by decide)

/-!
Claim C4: the pool load never goes negative.
-/

/-- An orchestrator API call, as exposed to callers. -/
inductive OrchOp
  | deployOp (project_id : String) (agent_ids : List String) (task : String)
      (now : String)
  | progressOp (deployment_key : String) (progress : Int)
      (logs : Option (List String)) (now : String)
  | recallOp (project_id : String) (now : String)

/-- Apply one orchestrator call to the state. -/
def applyOp (st : OrchState) : OrchOp → OrchState
  | .deployOp pid ids task now => (deploy_agents st pid ids task now).1
  | .progressOp key p logs now => (update_agent_progress st key p logs now).1
  | .recallOp pid now => (recall_agents st pid now).1

/-- Apply a sequence of orchestrator calls. -/
def runOps (st : OrchState) (ops : List OrchOp) : OrchState :=
  ops.foldl applyOp st

/-- Every agent bound in the pool has non-negative load. -/
def LoadNonneg (st : OrchState) : Prop := ∀ kv ∈ st.agent_pool, 0 ≤ kv.2.load

theorem updateA_mem_forall {κ α : Type} [DecidableEq κ] (P : α → Prop)
    (l : List (κ × α)) (k : κ) (f : α → α)
    (hP : ∀ kv ∈ l, P kv.2) (hf : ∀ v, P v → P (f v)) :
    ∀ kv ∈ updateA l k f, P kv.2 := by
  induction l with
  | nil => simp [updateA]
  | cons hd t ih =>
    obtain ⟨k0, v0⟩ := hd
    intro kv hkv
    by_cases h0 : k0 = k
    · simp only [updateA, if_pos h0] at hkv
      rcases List.mem_cons.mp hkv with h1 | h1
      · rw [h1]
        exact hf v0 (hP (k0, v0) (List.mem_cons_self _ _))
      · exact hP kv (List.mem_cons_of_mem _ h1)
    · simp only [updateA, if_neg h0] at hkv
      rcases List.mem_cons.mp hkv with h1 | h1
      · rw [h1]
        exact hP (k0, v0) (List.mem_cons_self _ _)
      · exact ih (fun kv2 hkv2 => hP kv2 (List.mem_cons_of_mem _ hkv2)) kv h1

theorem poolRelease_load_nonneg (a : PoolAgent) : 0 ≤ (poolRelease a).load :=
  le_max_left 0 (a.load - 1)

theorem deployLoop_load_nonneg (did pid task now : String) (ids : List String) :
    ∀ st : OrchState, LoadNonneg st →
      LoadNonneg { st with
        agent_pool := (deployLoop did pid task now ids st).1.agent_pool } := by
  induction ids with
  | nil => intro st h; simpa [deployLoop] using h
  | cons id rest ih =>
    intro st h
    cases hx : lookupA st.agent_pool id with
    | none =>
      rw [deployLoop_cons_none did pid task now id rest st hx]
      exact ih st h
    | some agent =>
      by_cases hav : agent.status = "available"
      · rw [deployLoop_cons_avail did pid task now id rest st agent hx hav]
        apply ih
        intro kv hkv
        refine updateA_mem_forall (fun v => 0 ≤ v.load) st.agent_pool id _
          (fun kv2 hkv2 => h kv2 hkv2) (fun v hv => ?_) kv hkv
        simp only []
        omega
      · rw [deployLoop_cons_busy did pid task now id rest st agent hx hav]
        exact ih st h

theorem update_progress_load_nonneg (st : OrchState) (key : String)
    (progress : Int) (logs : Option (List String)) (now : String)
    (h : LoadNonneg st) :
    LoadNonneg (update_agent_progress st key progress logs now).1 := by
  cases hkey : lookupA st.active_agents key with
  | none =>
    simp only [update_agent_progress, hkey]
    exact h
  | some d =>
    by_cases hp : (100 : Int) ≤ progress
    · obtain ⟨d1, _, _, hst1, _⟩ :=
        update_complete_effects st key progress logs now d hkey hp
      rw [hst1]
      intro kv hkv
      exact updateA_mem_forall (fun v => 0 ≤ v.load) st.agent_pool d.agent_id
        poolRelease (fun kv2 hkv2 => h kv2 hkv2)
        (fun v _ => poolRelease_load_nonneg v) kv hkv
    · have hpool : (update_agent_progress st key progress logs now).1.agent_pool
          = st.agent_pool := by
        rcases logs with _ | ls
        · simp only [update_agent_progress, hkey, if_neg hp]
        · by_cases hls : ls = []
          · simp only [update_agent_progress, hkey, if_neg hp, if_pos hls]
          · simp only [update_agent_progress, hkey, if_neg hp, if_neg hls]
      intro kv hkv
      rw [hpool] at hkv
      exact h kv hkv

theorem recallLoop_load_nonneg (pid now : String)
    (l : List (String × Deployment)) :
    ∀ st : OrchState, LoadNonneg st →
      LoadNonneg { st with
        agent_pool := (recallLoop pid now l st).1.agent_pool,
        active_agents := (recallLoop pid now l st).1.active_agents } := by
  induction l with
  | nil => intro st h; simpa [recallLoop] using h
  | cons hd rest ih =>
    obtain ⟨key, d⟩ := hd
    intro st h
    by_cases hm : d.project_id = pid
    · simp only [recallLoop, if_pos hm]
      apply ih
      intro kv hkv
      exact updateA_mem_forall (fun v => 0 ≤ v.load) st.agent_pool d.agent_id
        poolRelease (fun kv2 hkv2 => h kv2 hkv2)
        (fun v _ => poolRelease_load_nonneg v) kv hkv
    · simp only [recallLoop, if_neg hm]
      exact ih st h

theorem applyOp_load_nonneg (st : OrchState) (op : OrchOp) (h : LoadNonneg st) :
    LoadNonneg (applyOp st op) := by
  cases op with
  | deployOp pid ids task now =>
    have h2 := deployLoop_load_nonneg ("deploy_" ++ now ++ "_" ++ pid) pid task
      now ids st h
    intro kv hkv
    exact h2 kv (by simpa [applyOp, deploy_agents] using hkv)
  | progressOp key p logs now =>
    exact update_progress_load_nonneg st key p logs now h
  | recallOp pid now =>
    have h2 := recallLoop_load_nonneg pid now st.active_agents st h
    intro kv hkv
    exact h2 kv (by simpa [applyOp, recall_agents] using hkv)

/-- C4: starting from the constructor state, after any sequence of
`deploy_agents`, `update_agent_progress` and `recall_agents` calls every
agent in the pool has load ≥ 0 — the clamped decrement
`max(0, load - 1)` used both by completion and by recall never drives a
load negative. -/
theorem pool_load_never_negative (ops : List OrchOp) :
    ∀ kv ∈ (runOps initialOrchState ops).agent_pool, 0 ≤ kv.2.load := by
  have hrun : ∀ st : OrchState, LoadNonneg st → LoadNonneg (runOps st ops) := by
    induction ops with
    | nil => intro st h; exact h
    | cons op rest ih =>
      intro st h
      exact ih (applyOp st op) (applyOp_load_nonneg st op h)
  exact hrun initialOrchState
    (show ∀ kv ∈ initialOrchState.agent_pool, 0 ≤ kv.2.load by decide)

/-- The pool entry of "pm" after the witness operation sequence. -/
def pmReleased : PoolAgent :=
  { name := "PROJECT MANAGER", role := "Mission Coordinator",
    capabilities := ["project planning", "coordination",
                     "stakeholder management"],
    status := "available", current_task := none, load := 0 }

/-- Witness for C4: a deploy / double-complete / recall sequence applied to
the initial state keeps the load of "pm" non-negative. -/
theorem pool_load_never_negative_witness :
    0 ≤ (("pm", pmReleased) : String × PoolAgent).2.load :=
  pool_load_never_negative
    [OrchOp.deployOp "p1" ["pm"] "design" "T0",
     OrchOp.progressOp "deploy_T0_p1_pm" 100 none "T1",
     OrchOp.progressOp "deploy_T0_p1_pm" 100 none "T2",
     OrchOp.recallOp "p1" "T3"]
    ("pm", pmReleased)
    (by decide)

/-!
Claim C5: what recall removes and what it returns.
-/

/-- Erase a list of keys in order. -/
def eraseKeys {κ α : Type} [DecidableEq κ] (m : List (κ × α)) (ks : List κ) :
    List (κ × α) :=
  ks.foldl eraseA m

theorem lookupA_eraseKeys {κ α : Type} [DecidableEq κ] (ks : List κ) :
    ∀ m : List (κ × α), (m.map Prod.fst).Nodup → ∀ k : κ,
      lookupA (eraseKeys m ks) k = if k ∈ ks then none else lookupA m k := by
  induction ks with
  | nil => intro m _ k; simp [eraseKeys]
  | cons k0 ks ih =>
    intro m hnd k
    have hstep : eraseKeys m (k0 :: ks) = eraseKeys (eraseA m k0) ks := rfl
    have hnd' : ((eraseA m k0).map Prod.fst).Nodup :=
      hnd.sublist (eraseA_keys_sublist m k0)
    rw [hstep, ih (eraseA m k0) hnd' k]
    by_cases hks : k ∈ ks
    · simp [hks]
    · by_cases hk0 : k = k0
      · rw [hk0]
        simp [lookupA_eraseA_self m k0 hnd]
      · have : ¬ k ∈ k0 :: ks := by
          intro hmem
          rcases List.mem_cons.mp hmem with h1 | h1
          · exact hk0 h1
          · exact hks h1
        simp [hks, this, lookupA_eraseA_ne m k0 k (fun hh => hk0 hh.symm)]

theorem recallLoop_recalled (pid now : String) (l : List (String × Deployment)) :
    ∀ st : OrchState,
      (recallLoop pid now l st).2
        = (l.filter (fun kd => kd.2.project_id = pid)).map
            (fun kd => kd.2.agent_id) := by
  induction l with
  | nil => intro st; simp [recallLoop]
  | cons hd rest ih =>
    obtain ⟨key, d⟩ := hd
    intro st
    by_cases hm : d.project_id = pid
    · simp only [recallLoop, if_pos hm, List.filter_cons]
      simp [hm, ih]
    · simp only [recallLoop, if_neg hm, List.filter_cons]
      simp [hm, ih]

theorem recallLoop_active (pid now : String) (l : List (String × Deployment)) :
    ∀ st : OrchState,
      (recallLoop pid now l st).1.active_agents
        = eraseKeys st.active_agents
            ((l.filter (fun kd => kd.2.project_id = pid)).map Prod.fst) := by
  induction l with
  | nil => intro st; simp [recallLoop, eraseKeys]
  | cons hd rest ih =>
    obtain ⟨key, d⟩ := hd
    intro st
    by_cases hm : d.project_id = pid
    · simp only [recallLoop, if_pos hm, List.filter_cons]
      rw [ih]
      simp [hm, eraseKeys]
    · simp only [recallLoop, if_neg hm, List.filter_cons]
      rw [ih]
      simp [hm]

/-- C5 amended: `recall_agents(project_id)` removes from `active_agents`
every deployment record whose `project_id` matches — and only those — and
returns the agent ids of all matching records present immediately before
the call, regardless of each record's own status (completed records that
remained in the map after natural completion are recalled and returned as
well, not only records in status "deployed"/"active"). -/
theorem recall_removes_and_returns_matching
    (st : OrchState) (pid now : String)
    (hnd : (st.active_agents.map Prod.fst).Nodup) :
    (recall_agents st pid now).2
      = (st.active_agents.filter (fun kd => kd.2.project_id = pid)).map
          (fun kd => kd.2.agent_id) ∧
    (∀ k d, lookupA (recall_agents st pid now).1.active_agents k = some d →
      d.project_id ≠ pid ∧ lookupA st.active_agents k = some d) ∧
    (∀ k d, lookupA st.active_agents k = some d → d.project_id ≠ pid →
      lookupA (recall_agents st pid now).1.active_agents k = some d) := by
  have hrecalled := recallLoop_recalled pid now st.active_agents st
  have hactive := recallLoop_active pid now st.active_agents st
  have hchar : ∀ k, lookupA (recall_agents st pid now).1.active_agents k
      = if k ∈ (st.active_agents.filter
            (fun kd => kd.2.project_id = pid)).map Prod.fst
        then none else lookupA st.active_agents k := by
    intro k
    show lookupA (recallLoop pid now st.active_agents st).1.active_agents k = _
    rw [hactive]
    exact lookupA_eraseKeys _ st.active_agents hnd k
  refine ⟨hrecalled, ?_, ?_⟩
  · intro k d h
    rw [hchar k] at h
    by_cases hmem : k ∈ (st.active_agents.filter
        (fun kd => kd.2.project_id = pid)).map Prod.fst
    · rw [if_pos hmem] at h
      exact Option.noConfusion h
    · rw [if_neg hmem] at h
      refine ⟨?_, h⟩
      intro hpid
      apply hmem
      refine List.mem_map.mpr ⟨(k, d), ?_, rfl⟩
      refine List.mem_filter.mpr ⟨lookupA_mem h, ?_⟩
      simpa using hpid
  · intro k d h hpid
    rw [hchar k]
    have hmem : ¬ k ∈ (st.active_agents.filter
        (fun kd => kd.2.project_id = pid)).map Prod.fst := by
      intro hmem
      obtain ⟨kd, hkd, hfst⟩ := List.mem_map.mp hmem
      obtain ⟨hin, hdec⟩ := List.mem_filter.mp hkd
      have hlk : lookupA st.active_agents kd.1 = some kd.2 :=
        mem_lookupA hnd (by rw [← Prod.mk.eta (p := kd)] at hin; exact hin)
      rw [hfst] at hlk
      rw [h] at hlk
      injection hlk with h2
      apply hpid
      rw [h2]
      simpa using hdec
    rw [if_neg hmem]
    exact h

/-- Witness for the amended C5 at the concrete completed-deployment state. -/
theorem recall_removes_and_returns_matching_witness :
    (recall_agents stOnce "p1" "T3").2
      = (stOnce.active_agents.filter (fun kd => kd.2.project_id = "p1")).map
          (fun kd => kd.2.agent_id) :=
  (recall_removes_and_returns_matching stOnce "p1" "T3" (by decide)).1

/-!
Claims C6 and C7: the emitted event traces.
-/

/-- The events collected in a `LoopOut`. -/
def outEvents : LoopOut → List (Nat × Event)
  | .ok _ _ evs => evs
  | .exc _ _ evs _ => evs

theorem progressLoop_progress_sources (pid : String) (i : Nat)
    (sched : Nat → Option String) (ps : List Nat) :
    ∀ (k : Nat) (w : Workflow) (c : Nat) (pid0 : String) (i0 p : Nat),
      (c, Event.step_progress pid0 i0 p)
          ∈ (progressLoop pid i sched ps k w).2.2 →
      p ∈ ps ∧ (∀ s, sched c = some s → s = "running") := by
  induction ps with
  | nil => intro k w c pid0 i0 p h; simp [progressLoop] at h
  | cons p0 rest ih =>
    intro k w c pid0 i0 p h
    simp only [progressLoop] at h
    by_cases hst : (observe sched k w).status ≠ "running"
    · rw [if_pos hst] at h
      simp at h
    · rw [if_neg hst] at h
      rcases List.mem_cons.mp h with h1 | h1
      · have hc : c = k := congrArg Prod.fst h1
        have hev :
            Event.step_progress pid0 i0 p = Event.step_progress pid i p0 :=
          congrArg Prod.snd h1
        injection hev with _ _ hp
        refine ⟨by rw [hp]; exact List.mem_cons_self _ _, ?_⟩
        intro s hs
        rw [hc] at hs
        have : (observe sched k w).status = s := by
          simp [observe, hs]
        rw [this] at hst
        exact not_not.mp hst
      · obtain ⟨hmem, hsched⟩ := ih (k + 1) (observe sched k w) c pid0 i0 p h1
        exact ⟨List.mem_cons_of_mem _ hmem, hsched⟩

theorem outEvents_withPre (pre : List (Nat × Event)) (o : LoopOut) :
    outEvents (withPre pre o) = pre ++ outEvents o := by
  cases o <;> rfl

theorem stepLoop_progress_sources (pid : String)
    (exeStep : Nat → Except String String) (sched : Nat → Option String)
    (l : List (Nat × WStep)) :
    ∀ (k : Nat) (w : Workflow) (c : Nat) (pid0 : String) (i0 p : Nat),
      (c, Event.step_progress pid0 i0 p)
          ∈ outEvents (stepLoop pid exeStep sched l k w) →
      p ∈ ladder ∧ (∀ s, sched c = some s → s = "running") := by
  induction l with
  | nil => intro k w c pid0 i0 p h; simp [stepLoop, outEvents] at h
  | cons hd rest ih =>
    obtain ⟨i, step⟩ := hd
    intro k w c pid0 i0 p h
    simp only [stepLoop] at h
    by_cases hst : (observe sched k w).status ≠ "running"
    · rw [if_pos hst] at h
      simp [outEvents] at h
    · rw [if_neg hst] at h
      cases hexe : exeStep i with
      | error e =>
        rw [hexe] at h
        simp [outEvents] at h
      | ok res =>
        rw [hexe] at h
        rw [outEvents_withPre] at h
        rcases List.mem_append.mp h with h1 | h1
        · rcases List.mem_cons.mp h1 with h2 | h2
          · exact absurd (congrArg Prod.snd h2) (by simp)
          · rcases List.mem_append.mp h2 with h3 | h3
            · exact progressLoop_progress_sources pid i sched ladder (k + 1)
                _ c pid0 i0 p h3
            · exact absurd (congrArg Prod.snd (List.mem_singleton.mp h3))
                (by simp)
        · exact ih _ _ c pid0 i0 p h1

theorem execute_progress_sources (tbl : List (String × Workflow))
    (pid : String) (exeStep : Nat → Except String String)
    (sched : Nat → Option String) (w : Workflow) (evs : List (Nat × Event))
    (hrun : execute_workflow tbl pid exeStep sched = some (w, evs)) :
    ∀ (c : Nat) (pid0 : String) (i0 p : Nat),
      (c, Event.step_progress pid0 i0 p) ∈ evs →
      p ∈ ladder ∧ (∀ s, sched c = some s → s = "running") := by
  intro c pid0 i0 p hmem
  cases hw0 : lookupA tbl pid with
  | none =>
    simp only [execute_workflow, hw0] at hrun
    exact Option.noConfusion hrun
  | some w0 =>
    simp only [execute_workflow, hw0] at hrun
    cases hloop : stepLoop pid exeStep sched w0.steps.enum 0 w0 with
    | ok w1 k1 evs1 =>
      simp only [hloop] at hrun
      by_cases hst : (observe sched k1 w1).status = "running"
      · rw [if_pos hst] at hrun
        injection hrun with hpair
        have hevs : evs = evs1 ++ [(k1, Event.workflow_completed pid)] :=
          (congrArg Prod.snd hpair).symm
        rw [hevs] at hmem
        rcases List.mem_append.mp hmem with h1 | h1
        · exact stepLoop_progress_sources pid exeStep sched w0.steps.enum 0 w0
            c pid0 i0 p (by rw [hloop]; exact h1)
        · exact absurd (congrArg Prod.snd (List.mem_singleton.mp h1)) (by simp)
      · rw [if_neg hst] at hrun
        injection hrun with hpair
        have hevs : evs = evs1 := (congrArg Prod.snd hpair).symm
        rw [hevs] at hmem
        exact stepLoop_progress_sources pid exeStep sched w0.steps.enum 0 w0
          c pid0 i0 p (by rw [hloop]; exact hmem)
    | exc w1 k1 evs1 e =>
      simp only [hloop] at hrun
      injection hrun with hpair
      have hevs : evs = evs1 ++ [(k1, Event.workflow_error pid e)] :=
        (congrArg Prod.snd hpair).symm
      rw [hevs] at hmem
      rcases List.mem_append.mp hmem with h1 | h1
      · exact stepLoop_progress_sources pid exeStep sched w0.steps.enum 0 w0
          c pid0 i0 p (by rw [hloop]; exact h1)
      · exact absurd (congrArg Prod.snd (List.mem_singleton.mp h1)) (by simp)

/-- The tagged event trace of the undisturbed two-step run for "p2". -/
def trace2 : List (Nat × Event) :=
  [(0, Event.step_started "p2" 0)]
  ++ (List.range 11).map (fun j => (1 + j, Event.step_progress "p2" 0 (j * 10)))
  ++ [(12, Event.step_completed "p2" 0), (12, Event.step_started "p2" 1)]
  ++ (List.range 11).map (fun j => (13 + j, Event.step_progress "p2" 1 (j * 10)))
  ++ [(24, Event.step_completed "p2" 1), (24, Event.workflow_completed "p2")]

/-- C6: the undisturbed two-step run for "p2" emits exactly
`step_started(0)`, eleven `step_progress(0, p)` with p = 0,10,...,100 in
order, `step_completed(0)`, the same for step 1, then a single
`workflow_completed`; and in every run whatsoever each emitted progress
value is drawn from the fixed ladder 0..100 step 10. -/
theorem two_step_run_emits_fixed_trace :
    execute_workflow startedTable "p2" demoExec quiet
      = some (completedRun, trace2) ∧
    trace2.map Prod.snd
      = [Event.step_started "p2" 0]
        ++ ladder.map (Event.step_progress "p2" 0)
        ++ [Event.step_completed "p2" 0, Event.step_started "p2" 1]
        ++ ladder.map (Event.step_progress "p2" 1)
        ++ [Event.step_completed "p2" 1, Event.workflow_completed "p2"] ∧
    ladder = [0, 10, 20, 30, 40, 50, 60, 70, 80, 90, 100] ∧
    (∀ tbl pid exeStep sched w evs c pid0 i p,
      execute_workflow tbl pid exeStep sched = some (w, evs) →
      (c, Event.step_progress pid0 i p) ∈ evs → p ∈ ladder) := by
  refine ⟨by decide, by decide, by decide, ?_⟩
  intro tbl pid exeStep sched w evs c pid0 i p hrun hmem
  exact (execute_progress_sources tbl pid exeStep sched w evs hrun
    c pid0 i p hmem).1

/-- Witness for C6: the fixed-ladder clause applied to the concrete run. -/
theorem two_step_run_emits_fixed_trace_witness : (100 : Nat) ∈ ladder :=
  two_step_run_emits_fixed_trace.2.2.2 startedTable "p2" demoExec quiet
    completedRun trace2 11 "p2" 0 100 (by decide) (by decide)

/-- C7: one stop request broadcasts exactly one `workflow_stopped`, the
run's entry is gone from the table once the grace delay has elapsed, and —
because the loop reads the run status before every progress broadcast — no
`step_progress` event is emitted at or after any status read that can only
observe "stopped". -/
theorem stop_workflow_semantics (tbl : List (String × Workflow)) (pid : String)
    (hnd : (tbl.map Prod.fst).Nodup) :
    (stop_workflow tbl pid).2 = [Event.workflow_stopped pid] ∧
    lookupA (stop_workflow tbl pid).1 pid = none ∧
    (∀ exeStep sched K w evs,
      (∀ k, K ≤ k → sched k = some "stopped") →
      execute_workflow tbl pid exeStep sched = some (w, evs) →
      ∀ c pid0 i p, (c, Event.step_progress pid0 i p) ∈ evs → c < K) := by
  refine ⟨?_, ?_, ?_⟩
  · by_cases h : (lookupA tbl pid).isSome <;> simp [stop_workflow, h]
  · by_cases h : (lookupA tbl pid).isSome
    · have hkeys : ((updateA tbl pid (fun w => { w with status := "stopped" })).map
          Prod.fst).Nodup := by
        rw [updateA_keys]
        exact hnd
      simp only [stop_workflow, if_pos h]
      exact lookupA_eraseA_self _ pid hkeys
    · simp only [stop_workflow, if_neg h]
      exact Option.not_isSome_iff_eq_none.mp h
  · intro exeStep sched K w evs hK hrun c pid0 i p hmem
    by_contra h2
    have hle : K ≤ c := Nat.not_lt.mp h2
    have hsrc := (execute_progress_sources tbl pid exeStep sched w evs hrun
      c pid0 i p hmem).2 "stopped" (hK c hle)
    exact absurd hsrc (by decide)

/-- A schedule whose writes force "stopped" from read 2 onward. -/
def schedW : Nat → Option String :=
  fun k => if k < 2 then none else some "stopped"

/-- Final run state of the two-step run stopped during step 0. -/
def runW : Workflow :=
  { status := "stopped", start_time := "t0", current_step := 0,
    steps := [ { name := "s0", status := some "completed", result := some "r0" },
               { name := "s1", status := none, result := none } ],
    agents := ["pm"], error := none }

/-- Tagged trace of the two-step run stopped during step 0: one progress
event before the stop is observed, none after. -/
def traceW : List (Nat × Event) :=
  [(0, Event.step_started "p2" 0), (1, Event.step_progress "p2" 0 0),
   (3, Event.step_completed "p2" 0)]

/-- Witness for C7: the progress event emitted before the stop was observed
carries read tag 1 < 2. -/
theorem stop_workflow_semantics_witness : (1 : Nat) < 2 :=
  (stop_workflow_semantics startedTable "p2" (by decide)).2.2 demoExec schedW 2
    runW traceW
    (fun k hk => by unfold schedW; rw [if_neg (Nat.not_lt.mpr hk)])
    (by decide) 1 "p2" 0 0 (by decide)

/-!
Claim C8: terminal statuses and forward-only step indices.
-/

/-- Extract the step index of a `step_started` event. -/
def startedIdx : Nat × Event → Option Nat := fun te =>
  match te.2 with
  | Event.step_started _ i => some i
  | _ => none

theorem progressLoop_no_started (pid : String) (i : Nat)
    (sched : Nat → Option String) (ps : List Nat) :
    ∀ (k : Nat) (w : Workflow),
      (progressLoop pid i sched ps k w).2.2.filterMap startedIdx = [] := by
  induction ps with
  | nil => intro k w; simp [progressLoop]
  | cons p0 rest ih =>
    intro k w
    simp only [progressLoop]
    by_cases hst : (observe sched k w).status ≠ "running"
    · rw [if_pos hst]; rfl
    · rw [if_neg hst]
      simp [List.filterMap_cons, startedIdx, ih]

theorem stepLoop_started_subseq (pid : String)
    (exeStep : Nat → Except String String) (sched : Nat → Option String)
    (l : List (Nat × WStep)) :
    ∀ (k : Nat) (w : Workflow),
      ((outEvents (stepLoop pid exeStep sched l k w)).filterMap startedIdx)
        <+: l.map Prod.fst := by
  induction l with
  | nil => intro k w; simp [stepLoop, outEvents]
  | cons hd rest ih =>
    obtain ⟨i, step⟩ := hd
    intro k w
    simp only [stepLoop]
    by_cases hst : (observe sched k w).status ≠ "running"
    · rw [if_pos hst]
      simp only [outEvents, List.filterMap_nil, List.map_cons]
      exact List.nil_prefix
    · rw [if_neg hst]
      cases hexe : exeStep i with
      | error e =>
        simp only [outEvents, List.map_cons]
        rw [List.filterMap_cons]
        simp only [startedIdx, List.filterMap_nil]
        exact List.cons_prefix_cons.mpr ⟨rfl, List.nil_prefix⟩
      | ok res =>
        rw [outEvents_withPre]
        simp only [List.filterMap_append, List.filterMap_cons, startedIdx,
          List.map_cons]
        rw [progressLoop_no_started]
        simp only [List.nil_append, List.append_nil, List.filterMap_nil]
        exact List.cons_prefix_cons.mpr ⟨rfl, ih _ _⟩

theorem execute_started_increasing (tbl : List (String × Workflow))
    (pid : String) (exeStep : Nat → Except String String)
    (sched : Nat → Option String) (w : Workflow) (evs : List (Nat × Event))
    (hrun : execute_workflow tbl pid exeStep sched = some (w, evs)) :
    (evs.filterMap startedIdx).Pairwise (· < ·) := by
  cases hw0 : lookupA tbl pid with
  | none =>
    simp only [execute_workflow, hw0] at hrun
    exact Option.noConfusion hrun
  | some w0 =>
    simp only [execute_workflow, hw0] at hrun
    have hpre := stepLoop_started_subseq pid exeStep sched w0.steps.enum 0 w0
    rw [List.enum_map_fst] at hpre
    have hpw : ∀ evs1 : List (Nat × Event),
        (evs1.filterMap startedIdx) <+: List.range w0.steps.length →
        (evs1.filterMap startedIdx).Pairwise (· < ·) := by
      intro evs1 hp
      exact (List.pairwise_lt_range _).sublist hp.sublist
    cases hloop : stepLoop pid exeStep sched w0.steps.enum 0 w0 with
    | ok w1 k1 evs1 =>
      simp only [hloop] at hrun
      rw [hloop] at hpre
      simp only [outEvents] at hpre
      by_cases hst : (observe sched k1 w1).status = "running"
      · rw [if_pos hst] at hrun
        injection hrun with hpair
        have hevs : evs = evs1 ++ [(k1, Event.workflow_completed pid)] :=
          (congrArg Prod.snd hpair).symm
        rw [hevs, List.filterMap_append]
        simp only [List.filterMap_cons, startedIdx, List.filterMap_nil,
          List.append_nil]
        exact hpw evs1 hpre
      · rw [if_neg hst] at hrun
        injection hrun with hpair
        have hevs : evs = evs1 := (congrArg Prod.snd hpair).symm
        rw [hevs]
        exact hpw evs1 hpre
    | exc w1 k1 evs1 e =>
      simp only [hloop] at hrun
      rw [hloop] at hpre
      simp only [outEvents] at hpre
      injection hrun with hpair
      have hevs : evs = evs1 ++ [(k1, Event.workflow_error pid e)] :=
        (congrArg Prod.snd hpair).symm
      rw [hevs, List.filterMap_append]
      simp only [List.filterMap_cons, startedIdx, List.filterMap_nil,
        List.append_nil]
      exact hpw evs1 hpre

theorem execute_inert_on_terminal (tbl : List (String × Workflow))
    (pid : String) (exeStep : Nat → Except String String) (w0 : Workflow)
    (hw0 : lookupA tbl pid = some w0)
    (hterm : w0.status = "stopped" ∨ w0.status = "completed"
      ∨ w0.status = "error") :
    execute_workflow tbl pid exeStep quiet = some (w0, []) := by
  have hne : ¬ w0.status = "running" := by
    rcases hterm with h | h | h <;> rw [h] <;> decide
  have hobs : ∀ k, observe quiet k w0 = w0 := fun k => rfl
  cases hsteps : w0.steps.enum with
  | nil =>
    simp only [execute_workflow, hw0, hsteps, stepLoop]
    rw [hobs 0]
    rw [if_neg hne]
  | cons hd t =>
    obtain ⟨i, s⟩ := hd
    simp only [execute_workflow, hw0, hsteps, stepLoop]
    rw [hobs 0]
    rw [if_pos hne]
    simp only [outEvents]
    rw [hobs 1]
    rw [if_neg hne]

/-- C8 amended: terminal statuses (stopped/completed/error) are sinks for
`start_workflow` (an existing entry is never mutated), for the execution
loop (on a run whose status is terminal it performs no writes and emits no
events), and `currentStepIndex` — written exactly before each
`step_started` — only advances forward; `pause_workflow`, however,
unconditionally rewrites any existing run's status to "paused", including a
run already in a terminal status. -/
theorem terminal_sinks_except_pause :
    (∀ (tbl : List (String × Workflow)) pid cfgSteps cfgAgents now,
      (lookupA tbl pid).isSome →
      (start_workflow tbl pid cfgSteps cfgAgents now).1 = tbl) ∧
    (∀ (tbl : List (String × Workflow)) pid exeStep w0,
      lookupA tbl pid = some w0 →
      (w0.status = "stopped" ∨ w0.status = "completed"
        ∨ w0.status = "error") →
      execute_workflow tbl pid exeStep quiet = some (w0, [])) ∧
    (∀ (tbl : List (String × Workflow)) pid exeStep sched w evs,
      execute_workflow tbl pid exeStep sched = some (w, evs) →
      (evs.filterMap startedIdx).Pairwise (· < ·)) := by
  refine ⟨?_, ?_, ?_⟩
  · intro tbl pid cfgSteps cfgAgents now h
    simp [start_workflow, h]
  · intro tbl pid exeStep w0 hw0 hterm
    exact execute_inert_on_terminal tbl pid exeStep w0 hw0 hterm
  · intro tbl pid exeStep sched w evs hrun
    exact execute_started_increasing tbl pid exeStep sched w evs hrun

/-- Witness for the amended C8: the execution loop does nothing on the
completed run for "p2". -/
theorem terminal_sinks_except_pause_witness :
    execute_workflow completedTable "p2" demoExec quiet
      = some (completedRun, []) :=
  terminal_sinks_except_pause.2.1 completedTable "p2" demoExec completedRun
    rfl (Or.inr (Or.inl rfl))

/-!
Claim C10: completed runs are never evicted, so restarts stay blocked.
-/

/-- C10: `execute_workflow` marks the run completed but deletes nothing —
only `stop_workflow` removes table entries — so after a run for a project
finishes (its object, aliased by the table entry, has status "completed"),
the entry is still present and every later `start_workflow` for the same
project id is rejected by the "already running" check even though no
workflow is executing any more, leaving the table unchanged. -/
theorem completed_run_blocks_restart (tbl : List (String × Workflow))
    (pid : String) (exeStep : Nat → Except String String) (w : Workflow)
    (evs : List (Nat × Event)) (cfgSteps : List WStep)
    (cfgAgents : List String) (now : String)
    (hrun : execute_workflow tbl pid exeStep quiet = some (w, evs))
    (_hcomp : w.status = "completed") :
    lookupA (updateA tbl pid (fun _ => w)) pid = some w ∧
    (start_workflow (updateA tbl pid (fun _ => w)) pid cfgSteps cfgAgents
        now).1
      = updateA tbl pid (fun _ => w) ∧
    (start_workflow (updateA tbl pid (fun _ => w)) pid cfgSteps cfgAgents
        now).2
      = .error (500, "Failed to start workflow: "
          ++ httpExcStr 400 "Workflow already running") := by
  have hpresent : lookupA (updateA tbl pid (fun _ => w)) pid = some w := by
    cases hw0 : lookupA tbl pid with
    | none =>
      simp only [execute_workflow, hw0] at hrun
      exact Option.noConfusion hrun
    | some w0 =>
      rw [lookupA_updateA, if_pos rfl, hw0]
      rfl
  have hsome : (lookupA (updateA tbl pid (fun _ => w)) pid).isSome := by
    rw [hpresent]; rfl
  refine ⟨hpresent, ?_, ?_⟩
  · simp [start_workflow, hsome]
  · simp [start_workflow, hsome]

/-- Witness for C10 at the concrete completed two-step run. -/
theorem completed_run_blocks_restart_witness :
    (start_workflow (updateA startedTable "p2" (fun _ => completedRun)) "p2"
        demoSteps ["pm"] "t9").2
      = .error (500, "Failed to start workflow: "
          ++ httpExcStr 400 "Workflow already running") :=
  (completed_run_blocks_restart startedTable "p2" demoExec completedRun trace2
    demoSteps ["pm"] "t9" (by decide) rfl).2.2

/-!
Claim C9: broadcast failure isolation and self-healing cleanup.
-/

/-- Whether observer `o`'s metadata records a subscription to `p`. -/
def hasSub (md : List (Nat × List String)) (o : Nat) (p : String) : Bool :=
  match lookupA md o with
  | some subs => decide (p ∈ subs)
  | none => false

/-- Every member of a project's subscriber set is recorded in that
observer's metadata — the invariant `subscribe_to_project` maintains. -/
def Consistent (cs : ConnState) : Prop :=
  ∀ e ∈ cs.project_subscriptions, ∀ o ∈ e.2,
    hasSub cs.connection_metadata o e.1 = true

/-- Well-formedness of the manager state: no duplicate connections, no
duplicate project keys, duplicate-free subscriber sets, and consistency. -/
def GoodState (cs : ConnState) : Prop :=
  cs.active_connections.Nodup ∧
  (cs.project_subscriptions.map Prod.fst).Nodup ∧
  (∀ e ∈ cs.project_subscriptions, e.2.Nodup) ∧
  Consistent cs

/-- The observer is gone from the connection list and from every project
subscriber set. -/
def Removed (ws : Nat) (cs : ConnState) : Prop :=
  ws ∉ cs.active_connections ∧
  ∀ r s, lookupA cs.project_subscriptions r = some s → ws ∉ s

theorem hasSub_spec {md : List (Nat × List String)} {o : Nat} {p : String}
    (h : hasSub md o p = true) :
    ∃ subs, lookupA md o = some subs ∧ p ∈ subs := by
  unfold hasSub at h
  cases hmd : lookupA md o with
  | none => rw [hmd] at h; exact Bool.noConfusion h
  | some subs =>
    rw [hmd] at h
    exact ⟨subs, rfl, of_decide_eq_true h⟩

theorem dropSub_lookup_ne (ws : Nat) (ps : List (String × List Nat))
    (q r : String) (hne : r ≠ q) :
    lookupA (dropSub ws ps q) r = lookupA ps r := by
  cases hq : lookupA ps q with
  | none => simp only [dropSub, hq]
  | some conns =>
    simp only [dropSub, hq]
    by_cases hz : conns.erase ws = []
    · rw [if_pos hz]
      exact lookupA_eraseA_ne ps q r (fun hh => hne hh.symm)
    · rw [if_neg hz]
      rw [lookupA_updateA]
      rw [if_neg (fun hh => hne hh.symm)]

theorem dropSub_lookup_self (ws : Nat) (ps : List (String × List Nat))
    (q : String) (hpk : (ps.map Prod.fst).Nodup) (s' : List Nat)
    (h : lookupA (dropSub ws ps q) q = some s') :
    ∃ s, lookupA ps q = some s ∧ s' = s.erase ws := by
  cases hq : lookupA ps q with
  | none =>
    simp only [dropSub, hq] at h
    exact Option.noConfusion h
  | some conns =>
    simp only [dropSub, hq] at h
    by_cases hz : conns.erase ws = []
    · rw [if_pos hz] at h
      rw [lookupA_eraseA_self ps q hpk] at h
      exact Option.noConfusion h
    · rw [if_neg hz] at h
      rw [lookupA_updateA, if_pos rfl, hq] at h
      injection h with h2
      exact ⟨conns, rfl, h2.symm⟩

theorem dropSub_keys (ws : Nat) (ps : List (String × List Nat)) (q : String) :
    ((dropSub ws ps q).map Prod.fst).Sublist (ps.map Prod.fst) := by
  cases hq : lookupA ps q with
  | none => simp only [dropSub, hq]; exact List.Sublist.refl _
  | some conns =>
    simp only [dropSub, hq]
    by_cases hz : conns.erase ws = []
    · rw [if_pos hz]
      exact eraseA_keys_sublist ps q
    · rw [if_neg hz]
      rw [updateA_keys]

theorem foldDrop_keys (ws : Nat) (subs : List String) :
    ∀ ps : List (String × List Nat),
      ((subs.foldl (dropSub ws) ps).map Prod.fst).Sublist
        (ps.map Prod.fst) := by
  induction subs with
  | nil => intro ps; exact List.Sublist.refl _
  | cons q rest ih =>
    intro ps
    exact (ih (dropSub ws ps q)).trans (dropSub_keys ws ps q)

theorem foldDrop_untouched (ws : Nat) (subs : List String) :
    ∀ (ps : List (String × List Nat)) (r : String), r ∉ subs →
      lookupA (subs.foldl (dropSub ws) ps) r = lookupA ps r := by
  induction subs with
  | nil => intro ps r _; rfl
  | cons q rest ih =>
    intro ps r hr
    have hq : r ≠ q := fun hh => hr (hh ▸ List.mem_cons_self _ _)
    have hrest : r ∉ rest := fun hh => hr (List.mem_cons_of_mem _ hh)
    calc lookupA ((q :: rest).foldl (dropSub ws) ps) r
        = lookupA (rest.foldl (dropSub ws) (dropSub ws ps q)) r := rfl
      _ = lookupA (dropSub ws ps q) r := ih (dropSub ws ps q) r hrest
      _ = lookupA ps r := dropSub_lookup_ne ws ps q r hq

theorem foldDrop_shrink (ws : Nat) (subs : List String) :
    ∀ (ps : List (String × List Nat)), (ps.map Prod.fst).Nodup →
      ∀ (r : String) (s' : List Nat),
        lookupA (subs.foldl (dropSub ws) ps) r = some s' →
        ∃ s, lookupA ps r = some s ∧ s'.Sublist s := by
  induction subs with
  | nil => intro ps _ r s' h; exact ⟨s', h, List.Sublist.refl _⟩
  | cons q rest ih =>
    intro ps hpk r s' h
    have hpk1 : ((dropSub ws ps q).map Prod.fst).Nodup :=
      hpk.sublist (dropSub_keys ws ps q)
    obtain ⟨s1, hs1, hsub1⟩ := ih (dropSub ws ps q) hpk1 r s' h
    by_cases hq : r = q
    · obtain ⟨s, hs, hse⟩ := dropSub_lookup_self ws ps q hpk s1 (hq ▸ hs1)
      refine ⟨s, hq ▸ hs, ?_⟩
      rw [hse] at hsub1
      exact hsub1.trans (List.erase_sublist ws s)
    · rw [dropSub_lookup_ne ws ps q r hq] at hs1
      exact ⟨s1, hs1, hsub1⟩

theorem foldDrop_removed (ws : Nat) (subs : List String) :
    ∀ (ps : List (String × List Nat)), (ps.map Prod.fst).Nodup →
      (∀ r0 s0, lookupA ps r0 = some s0 → s0.Nodup) →
      ∀ (r : String) (s' : List Nat),
        lookupA (subs.foldl (dropSub ws) ps) r = some s' →
        r ∈ subs → ws ∉ s' := by
  induction subs with
  | nil => intro ps _ _ r s' _ hmem; simp at hmem
  | cons q rest ih =>
    intro ps hpk hsets r s' h hmem
    have hpk1 : ((dropSub ws ps q).map Prod.fst).Nodup :=
      hpk.sublist (dropSub_keys ws ps q)
    have hsets1 : ∀ r0 s0, lookupA (dropSub ws ps q) r0 = some s0 →
        s0.Nodup := by
      intro r0 s0 h0
      by_cases hr0 : r0 = q
      · obtain ⟨s, hs, hse⟩ := dropSub_lookup_self ws ps q hpk s0 (hr0 ▸ h0)
        rw [hse]
        exact (hsets q s hs).erase ws
      · rw [dropSub_lookup_ne ws ps q r0 hr0] at h0
        exact hsets r0 s0 h0
    by_cases hrest : r ∈ rest
    · exact ih (dropSub ws ps q) hpk1 hsets1 r s' h hrest
    · have hrq : r = q := by
        rcases List.mem_cons.mp hmem with h1 | h1
        · exact h1
        · exact absurd h1 hrest
      have h2 : lookupA (dropSub ws ps q) r = some s' := by
        rw [show (q :: rest).foldl (dropSub ws) ps
              = rest.foldl (dropSub ws) (dropSub ws ps q) from rfl] at h
        rw [foldDrop_untouched ws rest (dropSub ws ps q) r hrest] at h
        exact h
      obtain ⟨s, hs, hse⟩ := dropSub_lookup_self ws ps q hpk s' (hrq ▸ h2)
      rw [hse]
      intro hin
      exact absurd rfl (List.Nodup.mem_erase_iff (hsets q s hs) |>.mp hin).1

theorem disconnect_active_sublist (cs : ConnState) (g : Nat) :
    (disconnect cs g).active_connections.Sublist cs.active_connections := by
  cases hmd : lookupA cs.connection_metadata g with
  | none =>
    simp only [disconnect, hmd]
    by_cases hg : g ∈ cs.active_connections
    · rw [if_pos hg]; exact List.erase_sublist g cs.active_connections
    · rw [if_neg hg]
  | some subs =>
    simp only [disconnect, hmd]
    by_cases hg : g ∈ cs.active_connections
    · rw [if_pos hg]; exact List.erase_sublist g cs.active_connections
    · rw [if_neg hg]

theorem disconnect_self_not_active (cs : ConnState) (g : Nat)
    (hnd : cs.active_connections.Nodup) :
    g ∉ (disconnect cs g).active_connections := by
  have hcore : g ∉ (if g ∈ cs.active_connections
      then cs.active_connections.erase g else cs.active_connections) := by
    by_cases hg : g ∈ cs.active_connections
    · rw [if_pos hg]
      intro hin
      exact absurd rfl (hnd.mem_erase_iff.mp hin).1
    · rw [if_neg hg]; exact hg
  cases hmd : lookupA cs.connection_metadata g with
  | none => simp only [disconnect, hmd]; exact hcore
  | some subs => simp only [disconnect, hmd]; exact hcore

theorem disconnect_ps_keys (cs : ConnState) (g : Nat) :
    ((disconnect cs g).project_subscriptions.map Prod.fst).Sublist
      (cs.project_subscriptions.map Prod.fst) := by
  cases hmd : lookupA cs.connection_metadata g with
  | none => simp only [disconnect, hmd]; exact List.Sublist.refl _
  | some subs =>
    simp only [disconnect, hmd]
    exact foldDrop_keys g subs cs.project_subscriptions

theorem disconnect_ps_shrink (cs : ConnState) (g : Nat)
    (hpk : (cs.project_subscriptions.map Prod.fst).Nodup) (r : String)
    (s' : List Nat)
    (h : lookupA (disconnect cs g).project_subscriptions r = some s') :
    ∃ s, lookupA cs.project_subscriptions r = some s ∧ s'.Sublist s := by
  cases hmd : lookupA cs.connection_metadata g with
  | none =>
    simp only [disconnect, hmd] at h
    exact ⟨s', h, List.Sublist.refl _⟩
  | some subs =>
    simp only [disconnect, hmd] at h
    exact foldDrop_shrink g subs cs.project_subscriptions hpk r s' h

theorem disconnect_self_not_in_sets (cs : ConnState) (g : Nat)
    (hgood : GoodState cs) (r : String) (s' : List Nat)
    (h : lookupA (disconnect cs g).project_subscriptions r = some s') :
    g ∉ s' := by
  obtain ⟨-, hpk, hsetsmem, hcons⟩ := hgood
  have hsets : ∀ r0 s0, lookupA cs.project_subscriptions r0 = some s0 →
      s0.Nodup := fun r0 s0 h0 => hsetsmem (r0, s0) (lookupA_mem h0)
  cases hmd : lookupA cs.connection_metadata g with
  | none =>
    simp only [disconnect, hmd] at h
    intro hin
    have := hcons (r, s') (lookupA_mem h) g hin
    obtain ⟨subs, hsubs, -⟩ := hasSub_spec this
    rw [hmd] at hsubs
    exact Option.noConfusion hsubs
  | some subs =>
    simp only [disconnect, hmd] at h
    by_cases hr : r ∈ subs
    · exact foldDrop_removed g subs cs.project_subscriptions hpk hsets r s' h hr
    · rw [foldDrop_untouched g subs cs.project_subscriptions r hr] at h
      intro hin
      have := hcons (r, s') (lookupA_mem h) g hin
      obtain ⟨subs2, hsubs2, hrmem⟩ := hasSub_spec this
      rw [hmd] at hsubs2
      injection hsubs2 with h2
      exact hr (h2 ▸ hrmem)

theorem disconnect_good (cs : ConnState) (g : Nat) (hgood : GoodState cs) :
    GoodState (disconnect cs g) := by
  obtain ⟨hand, hpk, hsetsmem, hcons⟩ := hgood
  have hpk' : ((disconnect cs g).project_subscriptions.map Prod.fst).Nodup :=
    hpk.sublist (disconnect_ps_keys cs g)
  refine ⟨hand.sublist (disconnect_active_sublist cs g), hpk', ?_, ?_⟩
  · intro e he
    have hlk : lookupA (disconnect cs g).project_subscriptions e.1 = some e.2 :=
      mem_lookupA hpk' (by rw [Prod.mk.eta (p := e)]; exact he)
    obtain ⟨s, hs, hsub⟩ := disconnect_ps_shrink cs g hpk e.1 e.2 hlk
    exact (hsetsmem (e.1, s) (lookupA_mem hs)).sublist hsub
  · intro e he o ho
    have hlk : lookupA (disconnect cs g).project_subscriptions e.1 = some e.2 :=
      mem_lookupA hpk' (by rw [Prod.mk.eta (p := e)]; exact he)
    obtain ⟨s, hs, hsub⟩ := disconnect_ps_shrink cs g hpk e.1 e.2 hlk
    have hos : o ∈ s := hsub.mem ho
    have hhas := hcons (e.1, s) (lookupA_mem hs) o hos
    have hog : o ≠ g := by
      intro hh
      exact disconnect_self_not_in_sets cs g ⟨hand, hpk, hsetsmem, hcons⟩
        e.1 e.2 hlk (hh ▸ ho)
    cases hmd : lookupA cs.connection_metadata g with
    | none =>
      have : (disconnect cs g).connection_metadata
          = cs.connection_metadata := by
        simp only [disconnect, hmd]
      rw [show hasSub (disconnect cs g).connection_metadata o e.1
            = hasSub cs.connection_metadata o e.1 by rw [this]]
      exact hhas
    | some subs =>
      have : (disconnect cs g).connection_metadata
          = eraseA cs.connection_metadata g := by
        simp only [disconnect, hmd]
      rw [show hasSub (disconnect cs g).connection_metadata o e.1
            = hasSub (eraseA cs.connection_metadata g) o e.1 by rw [this]]
      unfold hasSub
      rw [lookupA_eraseA_ne cs.connection_metadata g o
        (fun hh => hog hh.symm)]
      unfold hasSub at hhas
      exact hhas

theorem disconnect_preserves_removed (cs : ConnState) (g ws : Nat)
    (hgood : GoodState cs) (hrem : Removed ws cs) :
    Removed ws (disconnect cs g) := by
  obtain ⟨hact, hsets⟩ := hrem
  refine ⟨fun hin => hact ((disconnect_active_sublist cs g).mem hin), ?_⟩
  intro r s' h
  obtain ⟨s, hs, hsub⟩ := disconnect_ps_shrink cs g hgood.2.1 r s' h
  intro hin
  exact hsets r s hs (hsub.mem hin)

theorem foldl_disconnect_good (L : List Nat) :
    ∀ cs : ConnState, GoodState cs → GoodState (L.foldl disconnect cs) := by
  induction L with
  | nil => intro cs h; exact h
  | cons g rest ih =>
    intro cs h
    exact ih (disconnect cs g) (disconnect_good cs g h)

theorem foldl_disconnect_preserves_removed (L : List Nat) :
    ∀ cs : ConnState, GoodState cs → ∀ ws, Removed ws cs →
      Removed ws (L.foldl disconnect cs) := by
  induction L with
  | nil => intro cs _ ws h; exact h
  | cons g rest ih =>
    intro cs hgood ws h
    exact ih (disconnect cs g) (disconnect_good cs g hgood) ws
      (disconnect_preserves_removed cs g ws hgood h)

theorem foldl_disconnect_removes (L : List Nat) :
    ∀ cs : ConnState, GoodState cs → ∀ ws ∈ L,
      Removed ws (L.foldl disconnect cs) := by
  induction L with
  | nil => intro cs _ ws h; simp at h
  | cons g rest ih =>
    intro cs hgood ws hmem
    by_cases hws : ws ∈ rest
    · exact ih (disconnect cs g) (disconnect_good cs g hgood) ws hws
    · have hwg : ws = g := by
        rcases List.mem_cons.mp hmem with h1 | h1
        · exact h1
        · exact absurd h1 hws
      have hrem : Removed ws (disconnect cs g) := by
        rw [hwg]
        exact ⟨disconnect_self_not_active cs g hgood.1,
          fun r s h => fun hin =>
            disconnect_self_not_in_sets cs g hgood r s h hin⟩
      exact foldl_disconnect_preserves_removed rest (disconnect cs g)
        (disconnect_good cs g hgood) ws hrem

/-- C9: during one broadcast every connected observer gets a send attempt in
list order — one observer's failure never prevents the attempts to the
others — and afterwards each failed observer has been disconnected: it is
gone from the global connection list and from every per-project subscriber
set (under the bookkeeping invariants the manager maintains: duplicate-free
connection list, project keys and subscriber sets, and metadata recording
every subscription). -/
theorem broadcast_isolates_failures_and_drops_them (cs : ConnState)
    (sendOk : Nat → Bool) (hgood : GoodState cs) :
    (broadcast cs sendOk).2
      = cs.active_connections.map (fun c => (c, sendOk c)) ∧
    (∀ f ∈ cs.active_connections, sendOk f = false →
      f ∉ (broadcast cs sendOk).1.active_connections ∧
      ∀ r s, lookupA (broadcast cs sendOk).1.project_subscriptions r
          = some s → f ∉ s) := by
  by_cases hempty : cs.active_connections = []
  · refine ⟨by simp [broadcast, hempty], ?_⟩
    intro f hf
    rw [hempty] at hf
    simp at hf
  · constructor
    · simp [broadcast, hempty]
    · intro f hf hfail
      have hmem : f ∈ cs.active_connections.filter (fun c => ! sendOk c) :=
        List.mem_filter.mpr ⟨hf, by rw [hfail]; rfl⟩
      have hrem := foldl_disconnect_removes
        (cs.active_connections.filter (fun c => ! sendOk c)) cs hgood f hmem
      have hbc : (broadcast cs sendOk).1
          = (cs.active_connections.filter (fun c => ! sendOk c)).foldl
              disconnect cs := by
        simp [broadcast, hempty]
      rw [hbc]
      exact ⟨hrem.1, hrem.2⟩

/-- A concrete two-observer state: observer 1 and 2 connected, both
subscribed to project "pr". -/
def csW : ConnState :=
  { active_connections := [1, 2],
    project_subscriptions := [("pr", [1, 2])],
    connection_metadata := [(1, ["pr"]), (2, ["pr"])] }

/-- Sends to observer 1 fail; sends to observer 2 succeed. -/
def sendOkW : Nat → Bool := fun c => decide (c = 2)

theorem goodState_csW : GoodState csW := by
  refine ⟨by decide, by decide, ?_, ?_⟩
  · intro e he
    rw [List.mem_singleton.mp he]
    decide
  · intro e he o ho
    rw [List.mem_singleton.mp he] at ho ⊢
    rcases List.mem_cons.mp ho with h | h
    · rw [h]; decide
    · rw [List.mem_singleton.mp h]; decide

/-- Witness for C9: with observer 1 failing, both observers are attempted
and observer 1 is dropped from the connection list. -/
theorem broadcast_isolates_failures_and_drops_them_witness :
    (broadcast csW sendOkW).2 = [(1, false), (2, true)] ∧
    1 ∉ (broadcast csW sendOkW).1.active_connections :=
  ⟨(broadcast_isolates_failures_and_drops_them csW sendOkW goodState_csW).1,
   ((broadcast_isolates_failures_and_drops_them csW sendOkW goodState_csW).2
     1 (by decide) (by decide)).1⟩
